import Mathlib

/-!
# Wellness Pup: the reminder scheduling logic of `src/app.js`

A shallow embedding of the scheduling functions of `app.js` and the properties
of them that the specification states.

Modelling conventions.

* A JavaScript string is the list of its UTF-16 code units (`Str`); the
  relational operators on strings compare code units lexicographically.
* A JavaScript number is a natural number or NaN (`Num`, `none` is NaN).
  Every comparison with NaN is false and arithmetic on NaN gives NaN.
* An instant (`new Date()`) is its time value: the milliseconds of local
  time since 1970-01-01 00:00 local time, for a fixed offset to UTC (no
  daylight-saving change).  A `Date` object is a `Num`: `none` is an
  Invalid Date.  A time value above 8.64e15 ms is not a date: every date
  that is built (`new Date(t)`, `setHours`) goes through `timeClip`, with
  the limit taken on the local value (offset zero).
* `while` loops take a fuel argument: the result is `none` when the fuel
  runs out before the loop ends.
-/

namespace WellnessPup

/-! ## JavaScript values -/

/-- A JavaScript string: its UTF-16 code units. -/
abbrev Str := List Nat

/-- A JavaScript number of the scheduling code: a natural number, `none` for NaN. -/
abbrev Num := Option Nat

/-- The code units of a Lean string literal (used to write examples). -/
def str (s : String) : Str := s.data.map Char.toNat

/-- The operator `a < b` on numbers (and on dates, through their time values). -/
def jsLt : Num → Num → Bool
  | some a, some b => decide (a < b)
  | _, _ => false

/-- The operator `a <= b` on numbers and dates. -/
def jsLe : Num → Num → Bool
  | some a, some b => decide (a ≤ b)
  | _, _ => false

/-- The operator `a >= b` on numbers and dates. -/
def jsGe : Num → Num → Bool
  | some a, some b => decide (b ≤ a)
  | _, _ => false

/-- The operator `a + b` on numbers. -/
def jsAdd : Num → Num → Num
  | some a, some b => some (a + b)
  | _, _ => none

/-- The expression `Math.floor(a / 60)`. -/
def floorDiv60 : Num → Num
  | some a => some (a / 60)
  | none => none

/-- The expression `a % 60`. -/
def mod60 : Num → Num
  | some a => some (a % 60)
  | none => none

/-- The operator `a < b` on strings: lexicographic on code units, a proper
prefix is smaller. -/
def strLt : Str → Str → Bool
  | _, [] => false
  | [], _ :: _ => true
  | a :: as, b :: bs => if a < b then true else if b < a then false else strLt as bs

/-- The operator `a >= b` on strings, the negation of `a < b`. -/
def strGe (a b : Str) : Bool := !strLt a b

/-- The conversion `String(n)`: the decimal digits, or `NaN`. -/
def numToString : Num → Str
  | none => [78, 97, 78]
  | some n => (Nat.toDigits 10 n).map Char.toNat

/-- The method `s.padStart(targetLength, c)` for a one-unit pad string. -/
def padStart (s : Str) (targetLength : Nat) (c : Nat) : Str :=
  List.replicate (targetLength - s.length) c ++ s

/-- The expression `String(n).padStart(2, '0')`. -/
def pad2 (n : Num) : Str := padStart (numToString n) 2 48

/-- The method `s.split(sep)` for a one-unit separator; the result is never empty. -/
def split (sep : Nat) : Str → List Str
  | [] => [[]]
  | c :: cs =>
    if c = sep then [] :: split sep cs
    else
      match split sep cs with
      | [] => [[c]]
      | p :: ps => (c :: p) :: ps

/-- Whether a code unit is one of `0` .. `9`. -/
def isDigit (c : Nat) : Bool := decide (48 ≤ c) && decide (c ≤ 57)

/-- The value of a string of decimal digits. -/
def digitsValue (s : Str) : Nat := s.foldl (fun acc c => 10 * acc + (c - 48)) 0

/-- The conversion `Number(s)`, modelled on strings of decimal digits: such a
string is its value (the empty string is 0).  Above 2^53 JavaScript rounds
the value; the rounded and the exact value both put every date built from
them out of range.  On a string with another code unit the model answers
NaN, which is what JavaScript answers unless the string is a numeric literal
with a sign, a fraction, an exponent, a radix prefix or surrounding white
space (`Number(' 09')` is 9): such strings are outside this model, and the
statements about times that are not well-formed are restricted to strings of
digits and colons (`PlainTimes`) or made at a named string. -/
def Number (s : Str) : Num :=
  if s.all isDigit then some (digitsValue s) else none

/-- A string made of decimal digits and colons only: every piece of its
`split(':')` is a string of digits, on which `Number` is modelled exactly. -/
def digitsAndColons (s : Str) : Bool := s.all (fun c => isDigit c || decide (c = 58))

/-- The destructuring `const [h, m] = s.split(':').map(Number)`.  A missing
second element is `undefined`, which every later use converts to NaN. -/
def parseTime (s : Str) : Num × Num :=
  match (split 58 s).map Number with
  | h :: m :: _ => (h, m)
  | [h] => (h, none)
  | [] => (none, none)

/-! ## Dates -/

def msPerMinute : Nat := 60000
def msPerHour : Nat := 3600000
def msPerDay : Nat := 86400000

/-- The method `getHours()` of a valid date. -/
def getHours (now : Nat) : Nat := now / msPerHour % 24

/-- The method `getMinutes()` of a valid date. -/
def getMinutes (now : Nat) : Nat := now / msPerMinute % 60

/-- The method `getDay()`: 0 is Sunday; 1970-01-01 was a Thursday. -/
def getDay (now : Nat) : Nat := (now / msPerDay + 4) % 7

/-- The method `toDateString()`, identified with the calendar date it names:
the number of the day since 1970-01-01. -/
def toDateString (now : Nat) : Nat := now / msPerDay

/-- The largest time value of a `Date`: 8.64e15 ms, 100000000 days. -/
def maxTimeValue : Nat := 8640000000000000

/-- The operation TimeClip: a time value within the range, or NaN. -/
def timeClip (t : Nat) : Num := if t ≤ maxTimeValue then some t else none

/-- The constructor `new Date(value)` on a number. -/
def newDate : Num → Num
  | some t => timeClip t
  | none => none

/-- The date made by `d = new Date(now); d.setHours(h, m, 0, 0)`: the same
calendar date at `h:m:00.000`; an Invalid Date when `h` or `m` is NaN or the
time value is out of range. -/
def setHours (now : Nat) : Num → Num → Num
  | some h, some m => timeClip (now / msPerDay * msPerDay + h * msPerHour + m * msPerMinute)
  | _, _ => none

/-- The template of lines 172, 194, 456 and 504: the zero-padded `HH:MM` of `now`. -/
def currentTime (now : Nat) : Str :=
  pad2 (some (getHours now)) ++ [58] ++ pad2 (some (getMinutes now))

/-! ## The application state -/

/-- The value of `state.nextReminder` and the result of `calculateNextReminder`:
`null` or a `Date` (whose time value may be NaN). -/
inductive Reminder where
  | null
  | date (t : Num)
  deriving DecidableEq, Repr

/-- The `state` object of lines 2-15 (without the timer handle `checkInterval`). -/
structure State where
  remindersEnabled : Bool
  workDays : List Nat
  startTime : Str
  lunchStart : Str
  lunchEnd : Str
  endTime : Str
  reminderInterval : Nat
  soundEnabled : Bool
  nextReminder : Reminder
  lastWorkStartNotification : Option Nat
  lastWorkEndNotification : Option Nat
  deriving DecidableEq, Repr

/-- The initial `state` of lines 2-15. -/
def initialState : State where
  remindersEnabled := true
  workDays := [1, 2, 3, 4, 5]
  startTime := str "09:00"
  lunchStart := str "11:30"
  lunchEnd := str "13:30"
  endTime := str "17:30"
  reminderInterval := 120
  soundEnabled := true
  nextReminder := Reminder.null
  lastWorkStartNotification := none
  lastWorkEndNotification := none

/-! ## The scheduling functions -/

/-- Lines 164-167, `isWorkDay`. -/
def isWorkDay (st : State) (now : Nat) : Bool :=
  st.workDays.contains (getDay now)

/-- Lines 170-185, `isWorkHours`. -/
def isWorkHours (st : State) (now : Nat) : Bool :=
  if strLt (currentTime now) st.startTime || strGe (currentTime now) st.endTime then false
  else if strGe (currentTime now) st.lunchStart && strLt (currentTime now) st.lunchEnd then false
  else true

/-- Lines 228-230, the loop
`while (nextReminder <= now) nextReminder = new Date(nextReminder.getTime() + interval * 60000)`:
`none` when the fuel runs out.  A sum above the largest time value makes an
Invalid Date, which ends the loop. -/
def scanLoop (reminderInterval now : Nat) : Nat → Num → Option Num
  | 0, _ => none
  | fuel + 1, nextReminder =>
    if jsLe nextReminder (some now) then
      scanLoop reminderInterval now fuel
        (newDate (jsAdd nextReminder (some (reminderInterval * 60000))))
    else some nextReminder

/-- Lines 233-235: a candidate inside the lunch window becomes the end of lunch. -/
def skipLunch (lunchTime endOfLunch nextReminder : Num) : Num :=
  if jsGe nextReminder lunchTime && jsLt nextReminder endOfLunch then endOfLunch
  else nextReminder

/-- Lines 188-243, `calculateNextReminder`, at the instant `now`. -/
def calculateNextReminder (fuel : Nat) (st : State) (now : Nat) : Option Reminder :=
  if !st.remindersEnabled || !isWorkDay st now then some Reminder.null
  else
    let startOfWork := setHours now (parseTime st.startTime).1 (parseTime st.startTime).2
    let lunchTime := setHours now (parseTime st.lunchStart).1 (parseTime st.lunchStart).2
    let endOfLunch := setHours now (parseTime st.lunchEnd).1 (parseTime st.lunchEnd).2
    let endOfWork := setHours now (parseTime st.endTime).1 (parseTime st.endTime).2
    if jsLt (some now) startOfWork then some (Reminder.date startOfWork)
    else if jsGe (some now) endOfWork then some Reminder.null
    else
      match scanLoop st.reminderInterval now fuel startOfWork with
      | none => none
      | some nextReminder =>
        if jsGe (skipLunch lunchTime endOfLunch nextReminder) endOfWork then some Reminder.null
        else some (Reminder.date (skipLunch lunchTime endOfLunch nextReminder))

/-! ## The schedule list -/

/-- The labels of the schedule entries (the icons are left out). -/
inductive Label where
  | workStarts
  | lunchTime
  | backToWork
  | workEnds
  | standUpBreak
  deriving DecidableEq, Repr

/-- An entry `{ time, label }` of the `schedule` array. -/
structure ScheduleItem where
  time : Str
  label : Label
  deriving DecidableEq, Repr

/-- Lines 379-399, the loop `while (true)` that pushes the stand-up entries:
`none` when the fuel runs out. -/
def scheduleLoop (reminderInterval : Nat) (lunchStartHour lunchEndHour lunchEndMin endHour : Num) :
    Nat → Num → Num → List ScheduleItem → Option (List ScheduleItem)
  | 0, _, _, _ => none
  | fuel + 1, currentHour, currentMin, schedule =>
    let added := jsAdd currentMin (some reminderInterval)
    let hour := if jsGe added (some 60) then jsAdd currentHour (floorDiv60 added) else currentHour
    let min := if jsGe added (some 60) then mod60 added else added
    if jsGe hour endHour then some schedule
    else if jsGe hour lunchStartHour && jsLt hour lunchEndHour then
      scheduleLoop reminderInterval lunchStartHour lunchEndHour lunchEndMin endHour fuel
        lunchEndHour lunchEndMin schedule
    else
      scheduleLoop reminderInterval lunchStartHour lunchEndHour lunchEndMin endHour fuel
        hour min (schedule ++ [⟨pad2 hour ++ [58] ++ pad2 min, Label.standUpBreak⟩])

/-- Lines 363-368, the four anchor entries. -/
def anchors (st : State) : List ScheduleItem :=
  [⟨st.startTime, Label.workStarts⟩, ⟨st.lunchStart, Label.lunchTime⟩,
   ⟨st.lunchEnd, Label.backToWork⟩, ⟨st.endTime, Label.workEnds⟩]

/-- Lines 371-399: the anchors followed by the generated stand-up entries,
before the sort. -/
def buildSchedule (fuel : Nat) (st : State) : Option (List ScheduleItem) :=
  scheduleLoop st.reminderInterval (parseTime st.lunchStart).1 (parseTime st.lunchEnd).1
    (parseTime st.lunchEnd).2 (parseTime st.endTime).1 fuel
    (parseTime st.startTime).1 (parseTime st.startTime).2 (anchors st)

/-- The method `a.localeCompare(b)`, taken as the comparison of code units.
On strings made of digits with the colons in the same places the collation
of the locale gives the same order. -/
def localeCompare (a b : Str) : Int :=
  if strLt a b then -1 else if strLt b a then 1 else 0

/-- Line 402, `schedule.sort((a, b) => a.time.localeCompare(b.time))`: the
stable sort by the comparator. -/
def sortSchedule (schedule : List ScheduleItem) : List ScheduleItem :=
  schedule.insertionSort (fun a b => localeCompare a.time b.time ≤ 0)

/-- Lines 362-402, `updateScheduleDisplay`: the sorted `schedule` array that
is rendered. -/
def updateScheduleDisplay (fuel : Nat) (st : State) : Option (List ScheduleItem) :=
  (buildSchedule fuel st).map sortSchedule

/-! ## The day-boundary notifications -/

/-- Lines 450-464, `checkWorkStartNotification`: whether the notification is
shown, and the state afterwards. -/
def checkWorkStartNotification (st : State) (now : Nat) : Bool × State :=
  if !st.remindersEnabled || !isWorkDay st now then (false, st)
  else if currentTime now = st.startTime ∧ st.lastWorkStartNotification ≠ some (toDateString now) then
    (true, { st with lastWorkStartNotification := some (toDateString now) })
  else (false, st)

/-- Lines 498-512, `checkWorkEndNotification`. -/
def checkWorkEndNotification (st : State) (now : Nat) : Bool × State :=
  if !st.remindersEnabled || !isWorkDay st now then (false, st)
  else if currentTime now = st.endTime ∧ st.lastWorkEndNotification ≠ some (toDateString now) then
    (true, { st with lastWorkEndNotification := some (toDateString now) })
  else (false, st)

/-- A tick of the driver: the instant, and the configuration in force (the
settings can be changed between ticks; the two markers of `cfg` are not used). -/
structure Tick where
  cfg : State
  now : Nat

/-- The state a tick runs in: its configuration with the markers carried over. -/
def Tick.state (t : Tick) (lastStart lastEnd : Option Nat) : State :=
  { t.cfg with lastWorkStartNotification := lastStart, lastWorkEndNotification := lastEnd }

/-- Lines 293-297 over a run of ticks: at each tick the work-start check and
then the work-end check.  The result lists, tick by tick, the instant and
whether each check fired. -/
def runChecks (lastStart lastEnd : Option Nat) : List Tick → List (Nat × Bool × Bool)
  | [] => []
  | t :: rest =>
    let r1 := checkWorkStartNotification (t.state lastStart lastEnd) t.now
    let r2 := checkWorkEndNotification r1.2 t.now
    (t.now, r1.1, r2.1) ::
      runChecks r2.2.lastWorkStartNotification r2.2.lastWorkEndNotification rest

/-- The number of work-start fires of a run on the calendar date `d`. -/
def startFiresOn (d : Nat) (run : List (Nat × Bool × Bool)) : Nat :=
  (run.filter (fun e => e.2.1 && decide (toDateString e.1 = d))).length

/-- The number of work-end fires of a run on the calendar date `d`. -/
def endFiresOn (d : Nat) (run : List (Nat × Bool × Bool)) : Nat :=
  (run.filter (fun e => e.2.2 && decide (toDateString e.1 = d))).length

/-! ## Saving the settings -/

/-- The values read from the settings screen (lines 584-588). -/
structure SettingsForm where
  startTime : Str
  lunchStart : Str
  lunchEnd : Str
  endTime : Str
  soundToggle : Bool

/-- What `saveSettingsFromUI` does to the state. -/
structure SaveResult where
  /-- The `state` object after the assignments of lines 584-588, which line 590
  writes to `localStorage` before anything is computed from it. -/
  saved : State
  /-- The state when the function returns, after `checkAndScheduleReminders`
  has stored the next reminder: `none` when `updateScheduleDisplay` or
  `calculateNextReminder` does not return. -/
  returned : Option State

/-- Lines 583-592, `saveSettingsFromUI`.  The five assignments of lines
584-588 come first and are persisted; then the schedule is built and the next
reminder stored.  The updates of the page are left out. -/
def saveSettingsFromUI (fuel : Nat) (st : State) (form : SettingsForm) (now : Nat) : SaveResult :=
  let st1 : State :=
    { st with
      startTime := form.startTime, lunchStart := form.lunchStart, lunchEnd := form.lunchEnd,
      endTime := form.endTime, soundEnabled := form.soundToggle }
  { saved := st1
    returned :=
      match updateScheduleDisplay fuel st1 with
      | none => none
      | some _ =>
        match calculateNextReminder fuel st1 now with
        | none => none
        | some r => some { st1 with nextReminder := r } }

/-! ## The reminder check of the driver -/

/-- Lines 285-291 of the timer callback of `startCountdown`: when
`state.nextReminder` is a date that `now` has reached, the notification is
shown and `checkAndScheduleReminders` stores the recomputed next reminder.
The result says whether the notification was shown; `none` when
`calculateNextReminder` does not return.  The clock reads of one callback
are taken as one instant. -/
def reminderTick (fuel : Nat) (st : State) (now : Nat) : Option (Bool × State) :=
  match st.nextReminder with
  | Reminder.null => some (false, st)
  | Reminder.date d =>
    if jsGe (some now) d then
      match calculateNextReminder fuel st now with
      | none => none
      | some r => some (true, { st with nextReminder := r })
    else some (false, st)

/-! ## Well-formed times -/

/-- A zero-padded `HH:MM` string: two digits, a colon, two digits, with the
hour below 24 and the minute below 60. -/
def isHHMM : Str → Bool
  | [a, b, c, d, e] =>
    isDigit a && isDigit b && decide (c = 58) && isDigit d && isDigit e &&
      decide ((a - 48) * 10 + (b - 48) < 24) && decide ((d - 48) * 10 + (e - 48) < 60)
  | _ => false

/-- The hour of an `HH:MM` string. -/
def hourOf : Str → Nat
  | [a, b, _, _, _] => (a - 48) * 10 + (b - 48)
  | _ => 0

/-- The minute of an `HH:MM` string. -/
def minuteOf : Str → Nat
  | [_, _, _, d, e] => (d - 48) * 10 + (e - 48)
  | _ => 0

/-- The minute of the day an `HH:MM` string names. -/
def minuteOfDay (s : Str) : Nat := hourOf s * 60 + minuteOf s

/-- The minute of the day of an instant (seconds dropped). -/
def nowMinute (now : Nat) : Nat := getHours now * 60 + getMinutes now

/-- The four times of the state are well-formed `HH:MM` strings. -/
def WellFormed (st : State) : Prop :=
  isHHMM st.startTime = true ∧ isHHMM st.lunchStart = true ∧
  isHHMM st.lunchEnd = true ∧ isHHMM st.endTime = true

instance (st : State) : Decidable (WellFormed st) := by
  unfold WellFormed; infer_instance

/-! ## The specification of the next reminder (section 4.1) -/

/-- The Configuration of the specification, times as minutes of the day. -/
structure Configuration where
  enabled : Bool
  workDays : List Nat
  startTime : Nat
  lunchStart : Nat
  lunchEnd : Nat
  endTime : Nat
  intervalMinutes : Nat

/-- The Configuration a state with well-formed times stands for. -/
def toConfiguration (st : State) : Configuration where
  enabled := st.remindersEnabled
  workDays := st.workDays
  startTime := minuteOfDay st.startTime
  lunchStart := minuteOfDay st.lunchStart
  lunchEnd := minuteOfDay st.lunchEnd
  endTime := minuteOfDay st.endTime
  intervalMinutes := st.reminderInterval

/-- The instant on the date of `now` at minute `t` of the day. -/
def todayAt (now t : Nat) : Nat := toDateString now * msPerDay + t * msPerMinute

/-- The least instant `start + k * step` that is strictly greater than `now`,
for `start ≤ now` and `0 < step`. -/
def leastSlotAfter (start step now : Nat) : Nat :=
  start + ((now - start) / step + 1) * step

/-- The operation `nextReminder(config, now)` as the specification words it. -/
def nextReminder (c : Configuration) (now : Nat) : Option Nat :=
  if c.enabled = false ∨ getDay now ∉ c.workDays then none
  else if now < todayAt now c.startTime then some (todayAt now c.startTime)
  else if todayAt now c.endTime ≤ now then none
  else
    let candidate := leastSlotAfter (todayAt now c.startTime) (c.intervalMinutes * msPerMinute) now
    let snapped :=
      if todayAt now c.lunchStart ≤ candidate ∧ candidate < todayAt now c.lunchEnd then
        todayAt now c.lunchEnd
      else candidate
    if todayAt now c.endTime ≤ snapped then none else some snapped

/-- The result of the specification as a value of the code: none is `null`. -/
def toReminder : Option Nat → Reminder
  | none => Reminder.null
  | some t => Reminder.date (some t)

/-! ## Example instants -/

/-- The instant of day `day` at `h:m:s.000`. -/
def atTime (day h m s : Nat) : Nat := day * msPerDay + h * msPerHour + m * msPerMinute + s * 1000

/-- Day 20760 is Tuesday 2026-11-03. -/
def tuesday : Nat := 20760

/-- Day 20764 is Saturday 2026-11-07. -/
def saturday : Nat := 20764

/-- The zero-padded string of hour `h` and minute `m`. -/
def hhmm (h m : Nat) : Str := [48 + h / 10, 48 + h % 10, 58, 48 + m / 10, 48 + m % 10]

/-- Day 20761 is Wednesday 2026-11-04. -/
def wednesday : Nat := 20761

/-- A state with both windows out of order: work from 17:30 to 09:00 and
lunch from 13:30 to 11:30. -/
def reversedState : State :=
  { initialState with
    startTime := str "17:30", lunchStart := str "13:30", lunchEnd := str "11:30",
    endTime := str "09:00" }

/-- A state with only the lunch window out of order: lunch from 13:30 to 11:30. -/
def reversedLunchState : State :=
  { initialState with lunchStart := str "13:30", lunchEnd := str "11:30" }

/-- A state whose lunch starts with the work: 09:00 / 09:00 / 10:00 / 17:00. -/
def lunchAtStartState : State :=
  { initialState with
    startTime := str "09:00", lunchStart := str "09:00", lunchEnd := str "10:00",
    endTime := str "17:00" }

/-- The initial state with an interval of 200000000000 minutes. -/
def hugeIntervalState : State := { initialState with reminderInterval := 200000000000 }

/-- The four times of the state are strings of digits and colons. -/
def PlainTimes (st : State) : Prop :=
  digitsAndColons st.startTime = true ∧ digitsAndColons st.lunchStart = true ∧
  digitsAndColons st.lunchEnd = true ∧ digitsAndColons st.endTime = true

instance (st : State) : Decidable (PlainTimes st) := by
  unfold PlainTimes; infer_instance

/-- A state whose `lunchStart` is the empty string of a cleared time input. -/
def clearedState : State := { initialState with lunchStart := [] }

/-- The settings form that leads to `clearedState`. -/
def clearedForm : SettingsForm where
  startTime := str "09:00"
  lunchStart := []
  lunchEnd := str "13:30"
  endTime := str "17:30"
  soundToggle := true

/-- A state whose `lunchStart` is not a time. -/
def malformedState : State := { initialState with lunchStart := str "abc" }

/-- The settings form that leads to `malformedState`. -/
def malformedForm : SettingsForm where
  startTime := str "09:00"
  lunchStart := str "abc"
  lunchEnd := str "13:30"
  endTime := str "17:30"
  soundToggle := true

/-! ## Auxiliary definitions for the schedule loop -/

/-- The hour of the slot after adding the interval to `h:m` (lines 380-384). -/
def nextHour (interval h m : Nat) : Nat :=
  if 60 ≤ m + interval then h + (m + interval) / 60 else h

/-- The minute of the slot after adding the interval to `h:m` (lines 380-384). -/
def nextMin (interval m : Nat) : Nat :=
  if 60 ≤ m + interval then (m + interval) % 60 else m + interval

/-- What the generated stand-up entries look like. -/
def StandUp (lsH leH endH : Nat) (e : ScheduleItem) : Prop :=
  e.label = Label.standUpBreak ∧
    ∃ hh mm, e.time = hhmm hh mm ∧ hh < endH ∧ mm < 60 ∧ ¬ (lsH ≤ hh ∧ hh < leH)

/-- The chronological order of schedule entries: by the minute of the day of their time. -/
def chronological (a b : ScheduleItem) : Prop := minuteOfDay a.time ≤ minuteOfDay b.time

instance : DecidableRel chronological := fun _ _ => Nat.decLe _ _

/-! ## Facts about the time strings -/

theorem pad2_lt_100 : ∀ n < 100, pad2 (some n) = [48 + n / 10, 48 + n % 10] := by decide

theorem getHours_lt (now : Nat) : getHours now < 24 := by
  unfold getHours; omega

theorem getMinutes_lt (now : Nat) : getMinutes now < 60 := by
  unfold getMinutes; omega

theorem currentTime_eq (now : Nat) : currentTime now = hhmm (getHours now) (getMinutes now) := by
  have h1 := pad2_lt_100 (getHours now) (by have := getHours_lt now; omega)
  have h2 := pad2_lt_100 (getMinutes now) (by have := getMinutes_lt now; omega)
  simp [currentTime, h1, h2, hhmm]

theorem isHHMM_eq_hhmm {s : Str} (h : isHHMM s = true) :
    s = hhmm (hourOf s) (minuteOf s) ∧ hourOf s < 24 ∧ minuteOf s < 60 := by
  match s, h with
  | [a, b, c, d, e], h =>
    simp only [isHHMM, isDigit, Bool.and_eq_true, decide_eq_true_eq] at h
    obtain ⟨⟨⟨⟨⟨⟨⟨ha1, ha2⟩, hb1, hb2⟩, hc⟩, hd1, hd2⟩, he1, he2⟩, hh⟩, hm⟩ := h
    subst hc
    refine ⟨?_, hh, hm⟩
    simp only [hhmm, hourOf, minuteOf]
    have e1 : 48 + ((a - 48) * 10 + (b - 48)) / 10 = a := by omega
    have e2 : 48 + ((a - 48) * 10 + (b - 48)) % 10 = b := by omega
    have e3 : 48 + ((d - 48) * 10 + (e - 48)) / 10 = d := by omega
    have e4 : 48 + ((d - 48) * 10 + (e - 48)) % 10 = e := by omega
    rw [e1, e2, e3, e4]

theorem hourOf_hhmm {h m : Nat} (hh : h < 100) : hourOf (hhmm h m) = h := by
  simp only [hhmm, hourOf]; omega

theorem minuteOf_hhmm {h m : Nat} (hm : m < 100) : minuteOf (hhmm h m) = m := by
  simp only [hhmm, minuteOf]; omega

theorem isHHMM_hhmm {h m : Nat} (hh : h < 24) (hm : m < 60) : isHHMM (hhmm h m) = true := by
  simp only [hhmm, isHHMM, isDigit, Bool.and_eq_true, decide_eq_true_eq]
  refine ⟨⟨⟨⟨⟨⟨⟨?_, ?_⟩, ?_, ?_⟩, trivial⟩, ?_, ?_⟩, ?_, ?_⟩, ?_⟩, ?_⟩ <;> omega

theorem strLt_hhmm {h m h2 m2 : Nat} (hm : m < 60) (hm2 : m2 < 60) :
    strLt (hhmm h m) (hhmm h2 m2) = decide (h * 60 + m < h2 * 60 + m2) := by
  simp only [hhmm, strLt]
  split_ifs <;> simp <;> omega

theorem parseTime_hhmm {h m : Nat} (hh : h < 100) (hm : m < 100) :
    parseTime (hhmm h m) = (some h, some m) := by
  have a1 : ¬ 48 + h / 10 = 58 := by omega
  have a2 : ¬ 48 + h % 10 = 58 := by omega
  have a3 : ¬ 48 + m / 10 = 58 := by omega
  have a4 : ¬ 48 + m % 10 = 58 := by omega
  have d1 : h / 10 ≤ 9 := by omega
  have d2 : h % 10 ≤ 9 := by omega
  have d3 : m / 10 ≤ 9 := by omega
  have d4 : m % 10 ≤ 9 := by omega
  simp [parseTime, hhmm, split, a1, a2, a3, a4, Number, isDigit, digitsValue, d1, d2, d3, d4]
  omega

/-! ## The scan of `calculateNextReminder` -/

theorem parseTime_of_isHHMM {s : Str} (h : isHHMM s = true) :
    parseTime s = (some (hourOf s), some (minuteOf s)) := by
  obtain ⟨e, hh, hm⟩ := isHHMM_eq_hhmm h
  conv_lhs => rw [e]
  exact parseTime_hhmm (by omega) (by omega)

theorem setHours_of_isHHMM {s : Str} (h : isHHMM s = true) (now : Nat) :
    setHours now (parseTime s).1 (parseTime s).2 = timeClip (todayAt now (minuteOfDay s)) := by
  rw [parseTime_of_isHHMM h]
  have e : msPerHour = 60 * msPerMinute := by decide
  show timeClip _ = timeClip _
  unfold todayAt minuteOfDay toDateString
  rw [e]
  apply congrArg timeClip
  ring

theorem timeClip_of_le {t : Nat} (h : t ≤ maxTimeValue) : timeClip t = some t := by
  unfold timeClip; rw [if_pos h]

theorem timeClip_of_gt {t : Nat} (h : maxTimeValue < t) : timeClip t = none := by
  unfold timeClip; rw [if_neg (by omega)]

theorem timeClip_eq_some {t x : Nat} (h : timeClip t = some x) : x = t ∧ t ≤ maxTimeValue := by
  unfold timeClip at h
  split_ifs at h with c
  · exact ⟨(Option.some.inj h).symm, c⟩

theorem todayAt_eq (now t : Nat) : todayAt now t = now / 86400000 * 86400000 + t * 60000 := rfl

theorem toDateString_eq (r : Nat) : toDateString r = r / 86400000 := rfl

theorem nowMinute_eq (r : Nat) : nowMinute r = r / 3600000 % 24 * 60 + r / 60000 % 60 := rfl

theorem maxTimeValue_eq : maxTimeValue = 100000000 * 86400000 := rfl

/-- Before the largest time value every time of the day of `now` is a valid date. -/
theorem todayAt_le_max {now t : Nat} (hnow : now < maxTimeValue) (ht : t < 1440) :
    todayAt now t ≤ maxTimeValue := by
  rw [todayAt_eq]
  rw [maxTimeValue_eq] at *
  omega

theorem scanLoop_gt (step now fuel c : Nat) (h : now < c) :
    scanLoop step now (fuel + 1) (some c) = some (some c) := by
  simp [scanLoop, jsLe, h]

theorem scanLoop_nan (step now fuel : Nat) :
    scanLoop step now (fuel + 1) none = some none := by
  simp [scanLoop, jsLe]

theorem leastSlotAfter_step {c S now : Nat} (hS : 0 < S) (h : c + S ≤ now) :
    leastSlotAfter (c + S) S now = leastSlotAfter c S now := by
  unfold leastSlotAfter
  have e : now - c = (now - (c + S)) + S := by omega
  rw [e, Nat.add_div_right _ hS]
  ring

theorem leastSlotAfter_ge (c S now : Nat) : c + S ≤ leastSlotAfter c S now := by
  unfold leastSlotAfter
  have : S ≤ ((now - c) / S + 1) * S := Nat.le_mul_of_pos_left _ (Nat.succ_pos _)
  omega

theorem leastSlotAfter_le {c S now : Nat} (h : c ≤ now) :
    leastSlotAfter c S now ≤ now + S := by
  unfold leastSlotAfter
  have h1 := Nat.div_mul_le_self (now - c) S
  have e : ((now - c) / S + 1) * S = (now - c) / S * S + S := by ring
  omega

theorem scanLoop_le (step now : Nat) (hstep : 0 < step) :
    ∀ (fuel c : Nat), c ≤ now → (now - c) / (step * 60000) + 2 ≤ fuel →
      scanLoop step now fuel (some c)
        = some (timeClip (leastSlotAfter c (step * 60000) now)) := by
  have hS : 0 < step * 60000 := by omega
  intro fuel
  induction fuel with
  | zero => intro c _ h; simp at h
  | succ fuel ih =>
    intro c hc hf
    have hle : jsLe (some c) (some now) = true := by simp [jsLe, hc]
    obtain ⟨f, rfl⟩ : ∃ f, fuel = f + 1 := by
      generalize (now - c) / (step * 60000) = q at hf
      exact ⟨fuel - 1, by omega⟩
    rw [scanLoop, if_pos hle]
    simp only [jsAdd, newDate]
    by_cases hclip : c + step * 60000 ≤ maxTimeValue
    · rw [timeClip_of_le hclip]
      by_cases h2 : c + step * 60000 ≤ now
      · rw [ih (c + step * 60000) h2, leastSlotAfter_step hS h2]
        have e : now - c = (now - (c + step * 60000)) + step * 60000 := by omega
        rw [e, Nat.add_div_right _ hS] at hf
        generalize (now - (c + step * 60000)) / (step * 60000) = q at hf
        omega
      · have h3 : now < c + step * 60000 := by omega
        rw [scanLoop_gt _ _ _ _ h3]
        have : (now - c) / (step * 60000) = 0 := Nat.div_eq_of_lt (by omega)
        have e : leastSlotAfter c (step * 60000) now = c + step * 60000 := by
          simp [leastSlotAfter, this]
        rw [e, timeClip_of_le hclip]
    · have h3 := leastSlotAfter_ge c (step * 60000) now
      rw [timeClip_of_gt (by omega), timeClip_of_gt (by omega), scanLoop_nan]

theorem leastSlotAfter_spec {start step now : Nat} (hstep : 0 < step) (h : start ≤ now) :
    now < leastSlotAfter start step now ∧
    (∃ k, leastSlotAfter start step now = start + k * step) ∧
    ∀ k, now < start + k * step → leastSlotAfter start step now ≤ start + k * step := by
  unfold leastSlotAfter
  refine ⟨?_, ⟨_, rfl⟩, ?_⟩
  · have := Nat.lt_div_mul_add (a := now - start) hstep
    have e : ((now - start) / step + 1) * step = (now - start) / step * step + step := by ring
    omega
  · intro k hk
    have h1 : (now - start) / step < k := by
      rw [Nat.div_lt_iff_lt_mul hstep]
      omega
    have : ((now - start) / step + 1) * step ≤ k * step := Nat.mul_le_mul_right _ h1
    omega

theorem now_sub_todayAt_lt (now t : Nat) : now - todayAt now t < msPerDay := by
  unfold todayAt toDateString
  have h1 := Nat.div_add_mod now msPerDay
  have h2 : now % msPerDay < msPerDay := Nat.mod_lt _ (by decide)
  have h3 : msPerDay * (now / msPerDay) = now / msPerDay * msPerDay := Nat.mul_comm _ _
  generalize now / msPerDay * msPerDay = a at *
  generalize t * msPerMinute = b at *
  omega

theorem scan_fuel_bound (st : State) (now t fuel : Nat) (hpos : 0 < st.reminderInterval)
    (hfuel : 1441 ≤ fuel) :
    (now - todayAt now t) / (st.reminderInterval * 60000) + 2 ≤ fuel := by
  have h1 := now_sub_todayAt_lt now t
  have h2 : (now - todayAt now t) / (st.reminderInterval * 60000) ≤ (now - todayAt now t) / 60000 :=
    Nat.div_le_div_left (by omega) (by decide)
  have h3 : msPerDay = 86400000 := rfl
  generalize (now - todayAt now t) / (st.reminderInterval * 60000) = q at *
  omega

theorem minuteOfDay_lt {s : Str} (h : isHHMM s = true) : minuteOfDay s < 1440 := by
  obtain ⟨-, a, b⟩ := isHHMM_eq_hhmm h
  unfold minuteOfDay
  omega

/-- The code and the specification agree where every date that is built is valid: `now` is
below the largest time value and so is the scanned candidate. -/
theorem calculateNextReminder_refines_aux (st : State) (now fuel : Nat)
    (hwf : WellFormed st) (hpos : 0 < st.reminderInterval) (hfuel : 1441 ≤ fuel)
    (hnow : now < maxTimeValue)
    (hcand : todayAt now (minuteOfDay st.startTime) ≤ now →
      now < todayAt now (minuteOfDay st.endTime) →
      leastSlotAfter (todayAt now (minuteOfDay st.startTime)) (st.reminderInterval * 60000) now
        ≤ maxTimeValue) :
    calculateNextReminder fuel st now
      = some (toReminder (nextReminder (toConfiguration st) now)) := by
  obtain ⟨h1, h2, h3, h4⟩ := hwf
  unfold calculateNextReminder
  rw [setHours_of_isHHMM h1, setHours_of_isHHMM h2, setHours_of_isHHMM h3, setHours_of_isHHMM h4,
    timeClip_of_le (todayAt_le_max hnow (minuteOfDay_lt h1)),
    timeClip_of_le (todayAt_le_max hnow (minuteOfDay_lt h2)),
    timeClip_of_le (todayAt_le_max hnow (minuteOfDay_lt h3)),
    timeClip_of_le (todayAt_le_max hnow (minuteOfDay_lt h4))]
  simp only [nextReminder, toConfiguration]
  by_cases hg : st.remindersEnabled = false ∨ getDay now ∉ st.workDays
  · have : (!st.remindersEnabled || !isWorkDay st now) = true := by
      rcases hg with hg | hg
      · simp [hg]
      · simp [isWorkDay, hg]
    rw [if_pos this, if_pos hg]; rfl
  · have : ¬ ((!st.remindersEnabled || !isWorkDay st now) = true) := by
      simp only [not_or, Bool.not_eq_false, not_not] at hg
      simp [isWorkDay, hg.1, hg.2]
    rw [if_neg this, if_neg hg]
    by_cases ha : now < todayAt now (minuteOfDay st.startTime)
    · simp [jsLt, ha, toReminder]
    · by_cases hb : todayAt now (minuteOfDay st.endTime) ≤ now
      · simp [jsLt, jsGe, ha, hb, toReminder]
      · rw [scanLoop_le _ _ hpos fuel _ (by omega) (scan_fuel_bound st now _ fuel hpos hfuel),
          timeClip_of_le (hcand (by omega) (by omega))]
        have e : msPerMinute = 60000 := rfl
        simp only [jsLt, jsGe, ha, hb, decide_False, decide_True, if_false, Bool.false_eq_true,
          skipLunch, e]
        split_ifs <;> simp_all [toReminder]

theorem skipLunch_nan (lunchTime endOfLunch : Num) : skipLunch lunchTime endOfLunch none = none := by
  simp [skipLunch, jsGe]

theorem result_of_nan (lunchTime endOfLunch endOfWork : Num) :
    (if jsGe (skipLunch lunchTime endOfLunch none) endOfWork = true then some Reminder.null
      else some (Reminder.date (skipLunch lunchTime endOfLunch none)))
      = some (Reminder.date none) := by
  rw [skipLunch_nan]
  simp [jsGe]

/-- Where a date that is built is out of range, no valid instant is returned. -/
theorem calculateNextReminder_out_of_range (st : State) (now fuel : Nat)
    (hwf : WellFormed st) (hpos : 0 < st.reminderInterval) (hfuel : 1441 ≤ fuel)
    (h : ¬ (now < maxTimeValue ∧
      (todayAt now (minuteOfDay st.startTime) ≤ now →
        now < todayAt now (minuteOfDay st.endTime) →
        leastSlotAfter (todayAt now (minuteOfDay st.startTime)) (st.reminderInterval * 60000) now
          ≤ maxTimeValue)))
    (r : Nat) : calculateNextReminder fuel st now ≠ some (Reminder.date (some r)) := by
  obtain ⟨h1, h2, h3, h4⟩ := hwf
  obtain ⟨f, rfl⟩ : ∃ f, fuel = f + 1 := ⟨fuel - 1, by omega⟩
  unfold calculateNextReminder
  rw [setHours_of_isHHMM h1, setHours_of_isHHMM h2, setHours_of_isHHMM h3, setHours_of_isHHMM h4]
  dsimp only
  split_ifs with g a b
  · simp
  · exfalso
    by_cases hs : todayAt now (minuteOfDay st.startTime) ≤ maxTimeValue
    · rw [timeClip_of_le hs] at a
      simp only [jsLt, decide_eq_true_eq] at a
      exact h ⟨by omega, fun h5 => absurd h5 (by omega)⟩
    · rw [timeClip_of_gt (by omega)] at a
      simp [jsLt] at a
  · simp
  · by_cases hs : todayAt now (minuteOfDay st.startTime) ≤ maxTimeValue
    · rw [timeClip_of_le hs] at a ⊢
      simp only [jsLt, decide_eq_true_eq] at a
      have hsn : todayAt now (minuteOfDay st.startTime) ≤ now := by omega
      have hc := (leastSlotAfter_spec (Nat.mul_pos hpos (by decide : 0 < 60000)) hsn).1
      rw [scanLoop_le _ _ hpos (f + 1) _ hsn (scan_fuel_bound st now _ (f + 1) hpos hfuel)]
      have hbig : maxTimeValue
          < leastSlotAfter (todayAt now (minuteOfDay st.startTime))
              (st.reminderInterval * 60000) now := by
        by_cases hnow : now < maxTimeValue
        · by_contra hcon
          exact h ⟨hnow, fun _ _ => by omega⟩
        · omega
      rw [timeClip_of_gt hbig]
      dsimp only
      rw [result_of_nan]
      simp
    · rw [timeClip_of_gt (by omega), scanLoop_nan]
      dsimp only
      rw [result_of_nan]
      simp

/-! ## Runs of the day-boundary checks -/

theorem toDateString_mono {a b : Nat} (h : a ≤ b) : toDateString a ≤ toDateString b :=
  Nat.div_le_div_right h

theorem checkWorkStart_keeps_end (st : State) (now : Nat) :
    (checkWorkStartNotification st now).2.lastWorkEndNotification = st.lastWorkEndNotification := by
  unfold checkWorkStartNotification
  split_ifs <;> rfl

theorem checkWorkEnd_keeps_start (st : State) (now : Nat) :
    (checkWorkEndNotification st now).2.lastWorkStartNotification
      = st.lastWorkStartNotification := by
  unfold checkWorkEndNotification
  split_ifs <;> rfl

/-- When the work-start check fires the marker was not the date of `now` and becomes it;
when it does not fire the state is unchanged. -/
theorem checkWorkStart_cases (st : State) (now : Nat) :
    ((checkWorkStartNotification st now).1 = true ∧
        st.lastWorkStartNotification ≠ some (toDateString now) ∧
        (checkWorkStartNotification st now).2.lastWorkStartNotification
          = some (toDateString now)) ∨
      ((checkWorkStartNotification st now).1 = false ∧
        (checkWorkStartNotification st now).2 = st) := by
  unfold checkWorkStartNotification
  split_ifs with h1 h2
  · exact Or.inr ⟨rfl, rfl⟩
  · exact Or.inl ⟨rfl, h2.2, rfl⟩
  · exact Or.inr ⟨rfl, rfl⟩

theorem checkWorkEnd_cases (st : State) (now : Nat) :
    ((checkWorkEndNotification st now).1 = true ∧
        st.lastWorkEndNotification ≠ some (toDateString now) ∧
        (checkWorkEndNotification st now).2.lastWorkEndNotification
          = some (toDateString now)) ∨
      ((checkWorkEndNotification st now).1 = false ∧
        (checkWorkEndNotification st now).2 = st) := by
  unfold checkWorkEndNotification
  split_ifs with h1 h2
  · exact Or.inr ⟨rfl, rfl⟩
  · exact Or.inl ⟨rfl, h2.2, rfl⟩
  · exact Or.inr ⟨rfl, rfl⟩

theorem startFiresOn_cons (d : Nat) (e : Nat × Bool × Bool) (run : List (Nat × Bool × Bool)) :
    startFiresOn d (e :: run)
      = (if e.2.1 = true ∧ toDateString e.1 = d then 1 else 0) + startFiresOn d run := by
  unfold startFiresOn
  by_cases h : e.2.1 = true ∧ toDateString e.1 = d
  · rw [List.filter_cons_of_pos (by simpa using h), if_pos h]; simp; omega
  · rw [List.filter_cons_of_neg (by simpa using h), if_neg h]; simp

theorem endFiresOn_cons (d : Nat) (e : Nat × Bool × Bool) (run : List (Nat × Bool × Bool)) :
    endFiresOn d (e :: run)
      = (if e.2.2 = true ∧ toDateString e.1 = d then 1 else 0) + endFiresOn d run := by
  unfold endFiresOn
  by_cases h : e.2.2 = true ∧ toDateString e.1 = d
  · rw [List.filter_cons_of_pos (by simpa using h), if_pos h]; simp; omega
  · rw [List.filter_cons_of_neg (by simpa using h), if_neg h]; simp

/-- Once the start marker is a date from `d` on, and all later ticks are on or after the
marker, no work-start fire falls on `d`. -/
theorem startFiresOn_eq_zero (d : Nat) :
    ∀ (ticks : List Tick) (d1 : Nat) (lastEnd : Option Nat), d ≤ d1 →
      List.Pairwise (fun a b : Tick => a.now ≤ b.now) ticks →
      (∀ t ∈ ticks, d1 ≤ toDateString t.now) →
      startFiresOn d (runChecks (some d1) lastEnd ticks) = 0 := by
  intro ticks
  induction ticks with
  | nil => intros; rfl
  | cons t rest ih =>
    intro d1 lastEnd hd hs hall
    rw [List.pairwise_cons] at hs
    have ht : d1 ≤ toDateString t.now := hall t (List.mem_cons_self _ _)
    have hrest : ∀ u ∈ rest, toDateString t.now ≤ toDateString u.now :=
      fun u hu => toDateString_mono (hs.1 u hu)
    rw [runChecks, startFiresOn_cons]
    simp only [checkWorkEnd_keeps_start]
    rcases checkWorkStart_cases (t.state (some d1) lastEnd) t.now with ⟨hf, hne, hm⟩ | ⟨hf, hst⟩
    · have hne2 : d1 ≠ toDateString t.now := by
        intro e; apply hne; simp [Tick.state, e]
      rw [hm, ih _ _ (by omega) hs.2 hrest, if_neg (by omega)]
    · rw [hst, hf]
      simp only [Tick.state]
      rw [ih d1 _ hd hs.2 (fun u hu => le_trans ht (hrest u hu))]
      simp

theorem startFiresOn_le_one (d : Nat) :
    ∀ (ticks : List Tick) (lastStart lastEnd : Option Nat),
      List.Pairwise (fun a b : Tick => a.now ≤ b.now) ticks →
      startFiresOn d (runChecks lastStart lastEnd ticks) ≤ 1 := by
  intro ticks
  induction ticks with
  | nil => intros; simp [runChecks, startFiresOn]
  | cons t rest ih =>
    intro lastStart lastEnd hs
    rw [List.pairwise_cons] at hs
    have hrest : ∀ u ∈ rest, toDateString t.now ≤ toDateString u.now :=
      fun u hu => toDateString_mono (hs.1 u hu)
    rw [runChecks, startFiresOn_cons]
    simp only [checkWorkEnd_keeps_start]
    rcases checkWorkStart_cases (t.state lastStart lastEnd) t.now with ⟨hf, hne, hm⟩ | ⟨hf, hst⟩
    · rw [hm]
      by_cases hd : toDateString t.now = d
      · rw [startFiresOn_eq_zero d rest _ _ (by omega) hs.2 hrest]
        split_ifs <;> omega
      · rw [if_neg (by tauto)]
        have := ih (some (toDateString t.now))
          (checkWorkEndNotification (checkWorkStartNotification (t.state lastStart lastEnd) t.now).2
            t.now).2.lastWorkEndNotification hs.2
        omega
    · rw [hf]
      have := ih (checkWorkStartNotification (t.state lastStart lastEnd) t.now).2.lastWorkStartNotification
          (checkWorkEndNotification (checkWorkStartNotification (t.state lastStart lastEnd) t.now).2
            t.now).2.lastWorkEndNotification hs.2
      simpa using this


theorem endFiresOn_eq_zero (d : Nat) :
    ∀ (ticks : List Tick) (d1 : Nat) (lastStart : Option Nat), d ≤ d1 →
      List.Pairwise (fun a b : Tick => a.now ≤ b.now) ticks →
      (∀ t ∈ ticks, d1 ≤ toDateString t.now) →
      endFiresOn d (runChecks lastStart (some d1) ticks) = 0 := by
  intro ticks
  induction ticks with
  | nil => intros; rfl
  | cons t rest ih =>
    intro d1 lastStart hd hs hall
    rw [List.pairwise_cons] at hs
    have ht : d1 ≤ toDateString t.now := hall t (List.mem_cons_self _ _)
    have hrest : ∀ u ∈ rest, toDateString t.now ≤ toDateString u.now :=
      fun u hu => toDateString_mono (hs.1 u hu)
    have hk := checkWorkStart_keeps_end (t.state lastStart (some d1)) t.now
    rw [runChecks, endFiresOn_cons]
    dsimp only
    rcases checkWorkEnd_cases (checkWorkStartNotification (t.state lastStart (some d1)) t.now).2
        t.now with ⟨hf, hne, hm⟩ | ⟨hf, hst⟩
    · have hne2 : d1 ≠ toDateString t.now := by
        intro e; apply hne; rw [hk]; simp [Tick.state, e]
      rw [hm, ih _ _ (by omega) hs.2 hrest, if_neg (by omega)]
    · rw [hst, hf, hk]
      simp only [Tick.state]
      rw [ih d1 _ hd hs.2 (fun u hu => le_trans ht (hrest u hu))]
      simp

theorem endFiresOn_le_one (d : Nat) :
    ∀ (ticks : List Tick) (lastStart lastEnd : Option Nat),
      List.Pairwise (fun a b : Tick => a.now ≤ b.now) ticks →
      endFiresOn d (runChecks lastStart lastEnd ticks) ≤ 1 := by
  intro ticks
  induction ticks with
  | nil => intros; simp [runChecks, endFiresOn]
  | cons t rest ih =>
    intro lastStart lastEnd hs
    rw [List.pairwise_cons] at hs
    have hrest : ∀ u ∈ rest, toDateString t.now ≤ toDateString u.now :=
      fun u hu => toDateString_mono (hs.1 u hu)
    rw [runChecks, endFiresOn_cons]
    dsimp only
    rcases checkWorkEnd_cases (checkWorkStartNotification (t.state lastStart lastEnd) t.now).2
        t.now with ⟨hf, hne, hm⟩ | ⟨hf, hst⟩
    · rw [hm]
      by_cases hd : toDateString t.now = d
      · rw [endFiresOn_eq_zero d rest _ _ (by omega) hs.2 hrest]
        split_ifs <;> omega
      · rw [if_neg (by tauto)]
        have := ih (checkWorkEndNotification
            (checkWorkStartNotification (t.state lastStart lastEnd) t.now).2
            t.now).2.lastWorkStartNotification (some (toDateString t.now)) hs.2
        omega
    · rw [hf]
      have := ih (checkWorkEndNotification
            (checkWorkStartNotification (t.state lastStart lastEnd) t.now).2
            t.now).2.lastWorkStartNotification
          (checkWorkEndNotification (checkWorkStartNotification (t.state lastStart lastEnd) t.now).2
            t.now).2.lastWorkEndNotification hs.2
      simpa using this

theorem checkWorkStart_fired {st : State} {now : Nat}
    (h : (checkWorkStartNotification st now).1 = true) :
    st.remindersEnabled = true ∧ isWorkDay st now = true ∧ currentTime now = st.startTime ∧
      st.lastWorkStartNotification ≠ some (toDateString now) ∧
      (checkWorkStartNotification st now).2
        = { st with lastWorkStartNotification := some (toDateString now) } := by
  unfold checkWorkStartNotification at h ⊢
  split_ifs at h ⊢ with h1 h2
  simp only [Bool.or_eq_true, Bool.not_eq_true', not_or, Bool.not_eq_false] at h1
  exact ⟨h1.1, h1.2, h2.1, h2.2, rfl⟩

theorem checkWorkEnd_fired {st : State} {now : Nat}
    (h : (checkWorkEndNotification st now).1 = true) :
    st.remindersEnabled = true ∧ isWorkDay st now = true ∧ currentTime now = st.endTime ∧
      st.lastWorkEndNotification ≠ some (toDateString now) ∧
      (checkWorkEndNotification st now).2
        = { st with lastWorkEndNotification := some (toDateString now) } := by
  unfold checkWorkEndNotification at h ⊢
  split_ifs at h ⊢ with h1 h2
  simp only [Bool.or_eq_true, Bool.not_eq_true', not_or, Bool.not_eq_false] at h1
  exact ⟨h1.1, h1.2, h2.1, h2.2, rfl⟩

/-! ## The windows of `isWorkHours` -/

theorem isWorkHours_hhmm (st : State) (now : Nat) (hwf : WellFormed st) :
    isWorkHours st now = true ↔
      (minuteOfDay st.startTime ≤ nowMinute now ∧ nowMinute now < minuteOfDay st.endTime) ∧
        ¬ (minuteOfDay st.lunchStart ≤ nowMinute now ∧ nowMinute now < minuteOfDay st.lunchEnd) := by
  obtain ⟨h1, h2, h3, h4⟩ := hwf
  obtain ⟨e1, a1, b1⟩ := isHHMM_eq_hhmm h1
  obtain ⟨e2, a2, b2⟩ := isHHMM_eq_hhmm h2
  obtain ⟨e3, a3, b3⟩ := isHHMM_eq_hhmm h3
  obtain ⟨e4, a4, b4⟩ := isHHMM_eq_hhmm h4
  have hm := getMinutes_lt now
  unfold isWorkHours strGe
  rw [currentTime_eq]
  conv_lhs => rw [e1, e2, e3, e4]
  rw [strLt_hhmm hm b1, strLt_hhmm hm b2, strLt_hhmm hm b3, strLt_hhmm hm b4]
  clear e1 e2 e3 e4 h1 h2 h3 h4
  unfold minuteOfDay nowMinute
  simp only [Bool.or_eq_true, Bool.and_eq_true, Bool.not_eq_true', decide_eq_true_eq,
    decide_eq_false_iff_not]
  split_ifs with c1 c2
  · simp only [Bool.false_eq_true, false_iff]; omega
  · simp only [Bool.false_eq_true, false_iff]; omega
  · simp only [true_iff]; omega

/-! ## The schedule loop and the sort -/

theorem nextMin_lt (interval m : Nat) : nextMin interval m < 60 := by
  unfold nextMin; split_ifs <;> omega

theorem nextHour_nextMin (interval h m : Nat) :
    nextHour interval h m * 60 + nextMin interval m = h * 60 + m + interval := by
  unfold nextHour nextMin; split_ifs <;> omega

theorem scheduleLoop_step (interval lsH leH leM endH fuel h m : Nat) (acc : List ScheduleItem) :
    scheduleLoop interval (some lsH) (some leH) (some leM) (some endH) (fuel + 1)
        (some h) (some m) acc
      = if endH ≤ nextHour interval h m then some acc
        else if lsH ≤ nextHour interval h m ∧ nextHour interval h m < leH then
          scheduleLoop interval (some lsH) (some leH) (some leM) (some endH) fuel
            (some leH) (some leM) acc
        else
          scheduleLoop interval (some lsH) (some leH) (some leM) (some endH) fuel
            (some (nextHour interval h m)) (some (nextMin interval m))
            (acc ++ [⟨pad2 (some (nextHour interval h m)) ++ [58]
                        ++ pad2 (some (nextMin interval m)), Label.standUpBreak⟩]) := by
  unfold nextHour nextMin
  by_cases c : 60 ≤ m + interval
  · simp [scheduleLoop, jsAdd, jsGe, jsLt, floorDiv60, mod60, c]
  · simp [scheduleLoop, jsAdd, jsGe, jsLt, floorDiv60, mod60, c]

theorem scheduleLoop_spec (interval lsH leH leM endH : Nat) (hpos : 0 < interval)
    (hleM : leM < 60) (hend : endH < 24) :
    ∀ (fuel h m : Nat) (acc : List ScheduleItem), m < 60 →
      endH * 60 - (h * 60 + m) + 1 ≤ fuel →
      ∃ gen, scheduleLoop interval (some lsH) (some leH) (some leM) (some endH) fuel
          (some h) (some m) acc = some (acc ++ gen) ∧
        ∀ e ∈ gen, StandUp lsH leH endH e := by
  intro fuel
  induction fuel with
  | zero => intro h m acc _ hf; omega
  | succ fuel ih =>
    intro h m acc hm hf
    rw [scheduleLoop_step]
    have h1 := nextMin_lt interval m
    have h2 := nextHour_nextMin interval h m
    generalize nextHour interval h m = hour at *
    generalize nextMin interval m = min at *
    by_cases c1 : endH ≤ hour
    · rw [if_pos c1]
      exact ⟨[], by simp, by simp⟩
    · rw [if_neg c1]
      by_cases c2 : lsH ≤ hour ∧ hour < leH
      · rw [if_pos c2]
        exact ih leH leM acc hleM (by omega)
      · rw [if_neg c2]
        obtain ⟨gen, e, hgen⟩ := ih hour min
          (acc ++ [⟨pad2 (some hour) ++ [58] ++ pad2 (some min), Label.standUpBreak⟩]) h1 (by omega)
        refine ⟨⟨pad2 (some hour) ++ [58] ++ pad2 (some min), Label.standUpBreak⟩ :: gen,
          by rw [e]; simp, ?_⟩
        intro x hx
        rcases List.mem_cons.1 hx with rfl | hx
        · refine ⟨rfl, hour, min, ?_, by omega, h1, c2⟩
          simp [pad2_lt_100 hour (by omega), pad2_lt_100 min (by omega), hhmm]
        · exact hgen x hx

theorem localeCompare_le_iff {a b : Str} (ha : isHHMM a = true) (hb : isHHMM b = true) :
    localeCompare a b ≤ 0 ↔ minuteOfDay a ≤ minuteOfDay b := by
  obtain ⟨e1, -, b1⟩ := isHHMM_eq_hhmm ha
  obtain ⟨e2, -, b2⟩ := isHHMM_eq_hhmm hb
  unfold localeCompare
  conv_lhs => rw [e1, e2]
  rw [strLt_hhmm b1 b2, strLt_hhmm b2 b1]
  unfold minuteOfDay
  simp only [decide_eq_true_eq]
  split_ifs <;> simp <;> omega

theorem strLt_iff_minuteOfDay {a b : Str} (ha : isHHMM a = true) (hb : isHHMM b = true) :
    strLt a b = true ↔ minuteOfDay a < minuteOfDay b := by
  obtain ⟨e1, -, b1⟩ := isHHMM_eq_hhmm ha
  obtain ⟨e2, -, b2⟩ := isHHMM_eq_hhmm hb
  conv_lhs => rw [e1, e2]
  rw [strLt_hhmm b1 b2]
  simp [minuteOfDay]

theorem orderedInsert_congr {α : Type} (r s : α → α → Prop) [DecidableRel r] [DecidableRel s]
    (a : α) : ∀ l : List α, (∀ b ∈ l, r a b ↔ s a b) →
      List.orderedInsert r a l = List.orderedInsert s a l := by
  intro l
  induction l with
  | nil => intro _; rfl
  | cons b l ih =>
    intro h
    have hb := h b (List.mem_cons_self _ _)
    have hl := ih (fun c hc => h c (List.mem_cons_of_mem _ hc))
    by_cases c : r a b
    · simp [List.orderedInsert, c, hb.1 c]
    · have c2 : ¬ s a b := fun x => c (hb.2 x)
      simp [List.orderedInsert, c, c2, hl]

theorem insertionSort_congr {α : Type} (r s : α → α → Prop) [DecidableRel r] [DecidableRel s] :
    ∀ l : List α, (∀ a ∈ l, ∀ b ∈ l, r a b ↔ s a b) →
      List.insertionSort r l = List.insertionSort s l := by
  intro l
  induction l with
  | nil => intro _; rfl
  | cons a l ih =>
    intro h
    have hl := ih (fun x hx y hy => h x (List.mem_cons_of_mem _ hx) y (List.mem_cons_of_mem _ hy))
    show List.orderedInsert r a (List.insertionSort r l)
      = List.orderedInsert s a (List.insertionSort s l)
    rw [hl]
    apply orderedInsert_congr
    intro b hb
    exact h a (List.mem_cons_self _ _) b
      (List.mem_cons_of_mem _ ((List.mem_insertionSort s).1 hb))

theorem buildSchedule_spec (st : State) (fuel : Nat) (hwf : WellFormed st)
    (hpos : 0 < st.reminderInterval) (hfuel : 1441 ≤ fuel) :
    ∃ gen, buildSchedule fuel st = some (anchors st ++ gen) ∧
      ∀ e ∈ gen, StandUp (hourOf st.lunchStart) (hourOf st.lunchEnd) (hourOf st.endTime) e := by
  obtain ⟨h1, h2, h3, h4⟩ := hwf
  obtain ⟨-, a1, b1⟩ := isHHMM_eq_hhmm h1
  obtain ⟨-, a3, b3⟩ := isHHMM_eq_hhmm h3
  obtain ⟨-, a4, b4⟩ := isHHMM_eq_hhmm h4
  unfold buildSchedule
  rw [parseTime_of_isHHMM h1, parseTime_of_isHHMM h2, parseTime_of_isHHMM h3,
    parseTime_of_isHHMM h4]
  exact scheduleLoop_spec _ _ _ _ _ hpos b3 a4 fuel _ _ _ b1 (by omega)

theorem anchors_isHHMM (st : State) (hwf : WellFormed st) :
    ∀ e ∈ anchors st, isHHMM e.time = true := by
  obtain ⟨h1, h2, h3, h4⟩ := hwf
  intro e he
  simp only [anchors, List.mem_cons, List.mem_singleton, List.not_mem_nil, or_false] at he
  rcases he with rfl | rfl | rfl | rfl <;> assumption

theorem StandUp.isHHMM {lsH leH endH : Nat} {e : ScheduleItem} (hend : endH < 24)
    (h : StandUp lsH leH endH e) : isHHMM e.time = true := by
  obtain ⟨-, hh, mm, e1, e2, e3, -⟩ := h
  rw [e1]
  exact isHHMM_hhmm (by omega) e3

/-- The result of `updateScheduleDisplay` on well-formed times. -/
theorem updateScheduleDisplay_spec (st : State) (fuel : Nat) (hwf : WellFormed st)
    (hpos : 0 < st.reminderInterval) (hfuel : 1441 ≤ fuel) :
    ∃ gen, buildSchedule fuel st = some (anchors st ++ gen) ∧
      (∀ e ∈ gen, StandUp (hourOf st.lunchStart) (hourOf st.lunchEnd) (hourOf st.endTime) e) ∧
      updateScheduleDisplay fuel st = some (sortSchedule (anchors st ++ gen)) ∧
      (∀ e ∈ anchors st ++ gen, isHHMM e.time = true) ∧
      sortSchedule (anchors st ++ gen) = List.insertionSort chronological (anchors st ++ gen) := by
  obtain ⟨gen, e, hgen⟩ := buildSchedule_spec st fuel hwf hpos hfuel
  have hend : hourOf st.endTime < 24 := (isHHMM_eq_hhmm hwf.2.2.2).2.1
  have hall : ∀ x ∈ anchors st ++ gen, isHHMM x.time = true := by
    intro x hx
    rcases List.mem_append.1 hx with hx | hx
    · exact anchors_isHHMM st hwf x hx
    · exact (hgen x hx).isHHMM hend
  refine ⟨gen, e, hgen, by simp [updateScheduleDisplay, e], hall, ?_⟩
  unfold sortSchedule
  apply insertionSort_congr
  intro a ha b hb
  exact localeCompare_le_iff (hall a ha) (hall b hb)


/-! ## Out-of-order and malformed times -/

theorem skipLunch_reversed (a b : Nat) (h : b < a) (c : Num) :
    skipLunch (some a) (some b) c = c := by
  unfold skipLunch
  cases c with
  | none => simp [jsGe]
  | some x =>
    have : ¬ (a ≤ x ∧ x < b) := by omega
    simp only [jsGe, jsLt, Bool.and_eq_true, decide_eq_true_eq, this, if_false]

theorem todayAt_lt (now : Nat) {a b : Nat} (h : a < b) : todayAt now a < todayAt now b := by
  unfold todayAt
  have : a * msPerMinute < b * msPerMinute := Nat.mul_lt_mul_of_pos_right h (by decide)
  omega

theorem nextReminder_reversed_lunch (c : Configuration) (now : Nat)
    (h : c.lunchEnd < c.lunchStart) :
    nextReminder c now = nextReminder { c with lunchStart := 0, lunchEnd := 0 } now := by
  have h1 := todayAt_lt now h
  unfold nextReminder
  dsimp only
  have e1 : ∀ x, ¬ (todayAt now c.lunchStart ≤ x ∧ x < todayAt now c.lunchEnd) := by
    intro x; omega
  have e2 : ∀ x, ¬ (todayAt now 0 ≤ x ∧ x < todayAt now 0) := by
    intro x; omega
  simp only [e1, e2, if_false]

theorem setHours_ge (now : Nat) (a b : Num) (x : Nat) (h : setHours now a b = some x) :
    now / msPerDay * msPerDay ≤ x := by
  cases a with
  | none => simp [setHours] at h
  | some a =>
    cases b with
    | none => simp [setHours] at h
    | some b =>
      have h2 : timeClip (now / msPerDay * msPerDay + a * msPerHour + b * msPerMinute)
          = some x := h
      obtain ⟨e, -⟩ := timeClip_eq_some h2
      omega

theorem scanLoop_total (interval now fuel : Nat) (hpos : 0 < interval) (hfuel : 1441 ≤ fuel)
    (c : Num) (hc : ∀ x, c = some x → now / msPerDay * msPerDay ≤ x) :
    ∃ r, scanLoop interval now fuel c = some r ∧ (c = none → r = none) := by
  obtain ⟨f, rfl⟩ : ∃ f, fuel = f + 1 := ⟨fuel - 1, by omega⟩
  cases c with
  | none => exact ⟨none, by simp [scanLoop, jsLe], fun _ => rfl⟩
  | some x =>
    by_cases hx : x ≤ now
    · refine ⟨_, scanLoop_le interval now hpos (f + 1) x hx ?_, by simp⟩
      have h0 := hc x rfl
      have h1 := Nat.div_add_mod now msPerDay
      have h2 : now % msPerDay < msPerDay := Nat.mod_lt _ (by decide)
      have h3 : msPerDay * (now / msPerDay) = now / msPerDay * msPerDay := Nat.mul_comm _ _
      have h4 : (now - x) / (interval * 60000) ≤ (now - x) / 60000 :=
        Nat.div_le_div_left (by omega) (by decide)
      have h5 : msPerDay = 86400000 := rfl
      generalize (now - x) / (interval * 60000) = q at *
      generalize now / msPerDay * msPerDay = d at *
      omega
    · exact ⟨_, scanLoop_gt _ _ _ _ (by omega), by simp⟩

theorem calculateNextReminder_total (st : State) (now fuel : Nat)
    (hpos : 0 < st.reminderInterval) (hfuel : 1441 ≤ fuel) :
    ∃ r, calculateNextReminder fuel st now = some r ∧
      (setHours now (parseTime st.startTime).1 (parseTime st.startTime).2 = none →
        r = Reminder.null ∨ r = Reminder.date none) := by
  unfold calculateNextReminder
  dsimp only
  by_cases h1 : (!st.remindersEnabled || !isWorkDay st now) = true
  · rw [if_pos h1]; exact ⟨_, rfl, fun _ => Or.inl rfl⟩
  rw [if_neg h1]
  by_cases h2 : jsLt (some now)
      (setHours now (parseTime st.startTime).1 (parseTime st.startTime).2) = true
  · rw [if_pos h2]
    refine ⟨_, rfl, fun e => ?_⟩
    rw [e] at h2; simp [jsLt] at h2
  rw [if_neg h2]
  by_cases h3 : jsGe (some now)
      (setHours now (parseTime st.endTime).1 (parseTime st.endTime).2) = true
  · rw [if_pos h3]; exact ⟨_, rfl, fun _ => Or.inl rfl⟩
  rw [if_neg h3]
  obtain ⟨r, e, hr⟩ := scanLoop_total st.reminderInterval now fuel hpos hfuel
    (setHours now (parseTime st.startTime).1 (parseTime st.startTime).2)
    (fun x hx => setHours_ge _ _ _ _ hx)
  rw [e]
  dsimp only
  split_ifs with h4
  · exact ⟨_, rfl, fun _ => Or.inl rfl⟩
  · refine ⟨_, rfl, fun e2 => Or.inr ?_⟩
    rw [hr e2]
    simp [skipLunch, jsGe]

theorem scheduleLoop_endHour_nan (interval : Nat) (lsH leH leM : Num) :
    ∀ (fuel : Nat) (h m : Num) (acc : List ScheduleItem),
      scheduleLoop interval lsH leH leM none fuel h m acc = none := by
  intro fuel
  induction fuel with
  | zero => intros; rfl
  | succ fuel ih =>
    intro h m acc
    have e : ∀ x : Num, jsGe x none = false := by
      intro x; cases x <;> rfl
    unfold scheduleLoop
    simp only [e, Bool.false_eq_true, if_false, ih, ite_self]

/-- With an `endTime` whose hour is NaN, the loop of `updateScheduleDisplay`
never reaches its `break`: no amount of fuel gives a result. -/
theorem updateScheduleDisplay_diverges (st : State) (h : (parseTime st.endTime).1 = none)
    (fuel : Nat) : updateScheduleDisplay fuel st = none := by
  simp [updateScheduleDisplay, buildSchedule, h, scheduleLoop_endHour_nan]

/-! ## Fuel and the returned instant -/

theorem scanLoop_succ (interval now : Nat) :
    ∀ (fuel : Nat) (c x : Num), scanLoop interval now fuel c = some x →
      scanLoop interval now (fuel + 1) c = some x := by
  intro fuel
  induction fuel with
  | zero => intro c x h; simp [scanLoop] at h
  | succ fuel ih =>
    intro c x h
    rw [scanLoop] at h ⊢
    split_ifs at h ⊢ with hc
    · exact ih _ _ h
    · exact h

theorem scanLoop_fuel_le (interval now : Nat) {fuel fuel2 : Nat} (hle : fuel ≤ fuel2)
    (c x : Num) (h : scanLoop interval now fuel c = some x) :
    scanLoop interval now fuel2 c = some x := by
  induction hle with
  | refl => exact h
  | step _ ih => exact scanLoop_succ _ _ _ _ _ ih

theorem calculateNextReminder_fuel_le (st : State) (now : Nat) {fuel fuel2 : Nat}
    (hle : fuel ≤ fuel2) (v : Reminder) (h : calculateNextReminder fuel st now = some v) :
    calculateNextReminder fuel2 st now = some v := by
  unfold calculateNextReminder at h ⊢
  dsimp only at h ⊢
  split_ifs at h ⊢ with h1 h2 h3
  · exact h
  · exact h
  · exact h
  · cases e : scanLoop st.reminderInterval now fuel
        (setHours now (parseTime st.startTime).1 (parseTime st.startTime).2) with
    | none => rw [e] at h; simp at h
    | some x =>
      rw [e] at h
      rw [scanLoop_fuel_le _ _ hle _ _ e]
      exact h

theorem nextReminder_some (c : Configuration) (now r : Nat)
    (h1 : c.startTime < c.lunchStart) (h2 : c.lunchStart < c.lunchEnd)
    (h3 : c.lunchEnd < c.endTime) (hpos : 0 < c.intervalMinutes)
    (h : nextReminder c now = some r) :
    now < r ∧ todayAt now c.startTime ≤ r ∧ r < todayAt now c.endTime ∧
      ¬ (todayAt now c.lunchStart ≤ r ∧ r < todayAt now c.lunchEnd) := by
  have t1 := todayAt_lt now h1
  have t2 := todayAt_lt now h2
  have t3 := todayAt_lt now h3
  unfold nextReminder at h
  dsimp only at h
  split_ifs at h with _ a
  · simp only [Option.some.injEq] at h; subst h
    exact ⟨a, le_refl _, by omega, by omega⟩
  all_goals
    obtain ⟨s1, ⟨k, s2⟩, -⟩ := @leastSlotAfter_spec (todayAt now c.startTime)
      (c.intervalMinutes * msPerMinute) now (Nat.mul_pos hpos (by decide)) (by omega)
    simp only [Option.some.injEq] at h
    subst h
    have s3 : todayAt now c.startTime ≤ leastSlotAfter (todayAt now c.startTime)
        (c.intervalMinutes * msPerMinute) now := by rw [s2]; omega
    refine ⟨by omega, by omega, by omega, by omega⟩

theorem toDateString_of_today {now r a b : Nat} (hb : b < 1440)
    (h1 : todayAt now a ≤ r) (h2 : r < todayAt now b) : toDateString r = toDateString now := by
  rw [todayAt_eq] at h1 h2
  rw [toDateString_eq, toDateString_eq]
  omega

theorem nowMinute_of_today {now r a b : Nat} (hb : b < 1440)
    (h1 : todayAt now a ≤ r) (h2 : r < todayAt now b) :
    a ≤ nowMinute r ∧ nowMinute r < b ∧
      ∀ x, (x ≤ nowMinute r ↔ todayAt now x ≤ r) := by
  rw [todayAt_eq] at h1 h2
  rw [nowMinute_eq]
  refine ⟨by omega, by omega, fun x => ?_⟩
  rw [todayAt_eq]
  omega

theorem skipLunch_clip_reversed (a b : Nat) (h : b < a) (c : Num) :
    skipLunch (timeClip a) (timeClip b) c = c := by
  by_cases ha : a ≤ maxTimeValue
  · rw [timeClip_of_le ha, timeClip_of_le (by omega)]
    exact skipLunch_reversed a b h c
  · rw [timeClip_of_gt (by omega)]
    cases c <;> simp [skipLunch, jsGe]

theorem skipLunch_same (a c : Num) : skipLunch a a c = c := by
  cases a with
  | none => cases c <;> simp [skipLunch, jsGe]
  | some a =>
    cases c with
    | none => simp [skipLunch, jsGe]
    | some x =>
      have : ¬ (a ≤ x ∧ x < a) := by omega
      simp only [skipLunch, jsGe, jsLt, Bool.and_eq_true, decide_eq_true_eq, this, if_false]

/-! # The claims of the specification -/

/-! ## The next reminder -/

/-- C1, counterexample: with well-formed times and the positive interval
200000000000, on a Tuesday at 10:00, `calculateNextReminder` returns an
Invalid Date (the sum of the scan is above the largest time value, so no
comparison with it holds), where the `nextReminder` of the specification
gives none. -/
theorem calculateNextReminder_huge_interval :
    (WellFormed hugeIntervalState ∧ 0 < hugeIntervalState.reminderInterval) ∧
      calculateNextReminder 1441 hugeIntervalState (atTime tuesday 10 0 0)
        = some (Reminder.date none) ∧
      nextReminder (toConfiguration hugeIntervalState) (atTime tuesday 10 0 0) = none ∧
      calculateNextReminder 1441 hugeIntervalState (atTime tuesday 10 0 0)
        ≠ some (toReminder (nextReminder (toConfiguration hugeIntervalState)
            (atTime tuesday 10 0 0))) := by
  decide

/-- C1, amended: for a state with well-formed `HH:MM` times and a positive
interval, and for every instant `now` with `now + interval` at most the
largest time value of a date, `calculateNextReminder` (with fuel for its scan
loop) returns the value of the `nextReminder` of the specification: none when
reminders are disabled or the weekday is not a work day (so always none for
an empty `workDays`), the start of work before it, none from the end of work
on, and otherwise the least `startOfWork + k * interval` strictly greater
than `now`, replaced by the end of lunch when it lies in the lunch window,
unless that is at or after the end of work. -/
theorem calculateNextReminder_eq_nextReminder (st : State) (now fuel : Nat)
    (hwf : WellFormed st) (hpos : 0 < st.reminderInterval) (hfuel : 1441 ≤ fuel)
    (hrange : now + st.reminderInterval * 60000 ≤ maxTimeValue) :
    calculateNextReminder fuel st now
        = some (toReminder (nextReminder (toConfiguration st) now)) ∧
      (st.workDays = [] → calculateNextReminder fuel st now = some Reminder.null) ∧
      (todayAt now (minuteOfDay st.startTime) ≤ now →
        now < leastSlotAfter (todayAt now (minuteOfDay st.startTime))
                (st.reminderInterval * msPerMinute) now ∧
        (∃ k, leastSlotAfter (todayAt now (minuteOfDay st.startTime))
                (st.reminderInterval * msPerMinute) now
              = todayAt now (minuteOfDay st.startTime) + k * (st.reminderInterval * msPerMinute)) ∧
        ∀ k, now < todayAt now (minuteOfDay st.startTime) + k * (st.reminderInterval * msPerMinute) →
          leastSlotAfter (todayAt now (minuteOfDay st.startTime))
              (st.reminderInterval * msPerMinute) now
            ≤ todayAt now (minuteOfDay st.startTime) + k * (st.reminderInterval * msPerMinute)) := by
  refine ⟨calculateNextReminder_refines_aux st now fuel hwf hpos hfuel (by omega) ?_, ?_, ?_⟩
  · intro h _
    have := @leastSlotAfter_le (todayAt now (minuteOfDay st.startTime))
      (st.reminderInterval * 60000) now h
    omega
  · intro h
    simp [calculateNextReminder, isWorkDay, h]
  · intro h
    exact leastSlotAfter_spec (Nat.mul_pos hpos (by decide)) h

/-- C1, the examples of the specification: with 09:00 / 11:30 / 13:30 / 17:30,
interval 120 and work days 1..5, a Tuesday at 11:05 gives 13:30, at 08:59
gives 09:00, at 09:00:01 gives 11:00 and at 17:29 gives none. -/
theorem calculateNextReminder_examples :
    (WellFormed initialState ∧ 0 < initialState.reminderInterval ∧
        atTime tuesday 17 29 0 + initialState.reminderInterval * 60000 ≤ maxTimeValue) ∧
      calculateNextReminder 1441 initialState (atTime tuesday 11 5 0)
        = some (Reminder.date (some (atTime tuesday 13 30 0))) ∧
      calculateNextReminder 1441 initialState (atTime tuesday 8 59 0)
        = some (Reminder.date (some (atTime tuesday 9 0 0))) ∧
      calculateNextReminder 1441 initialState (atTime tuesday 9 0 1)
        = some (Reminder.date (some (atTime tuesday 11 0 0))) ∧
      calculateNextReminder 1441 initialState (atTime tuesday 17 29 0) = some Reminder.null :=
  ⟨⟨by decide, by decide, by decide⟩,
   (calculateNextReminder_eq_nextReminder initialState (atTime tuesday 11 5 0) 1441
      (by decide) (by decide) (by decide) (by decide)).1.trans (by decide),
   (calculateNextReminder_eq_nextReminder initialState (atTime tuesday 8 59 0) 1441
      (by decide) (by decide) (by decide) (by decide)).1.trans (by decide),
   (calculateNextReminder_eq_nextReminder initialState (atTime tuesday 9 0 1) 1441
      (by decide) (by decide) (by decide) (by decide)).1.trans (by decide),
   (calculateNextReminder_eq_nextReminder initialState (atTime tuesday 17 29 0) 1441
      (by decide) (by decide) (by decide) (by decide)).1.trans (by decide)⟩

/-! ## The day-boundary events -/

/-- C2: over every run of driver ticks in non-decreasing time order, started
with empty markers and with any configuration at each tick, the work-start
check fires at most once on any calendar date, and so does the work-end
check; a second call on the date of a fire does not fire, whatever the
configuration, and a call at the boundary minute on a later work day fires
again. -/
theorem boundary_fires_at_most_once_per_date (ticks : List Tick) (d : Nat)
    (hsorted : List.Pairwise (fun a b : Tick => a.now ≤ b.now) ticks) :
    startFiresOn d (runChecks none none ticks) ≤ 1 ∧
      endFiresOn d (runChecks none none ticks) ≤ 1 ∧
      (∀ (st cfg : State) (now now2 : Nat),
        (checkWorkStartNotification st now).1 = true → toDateString now2 = toDateString now →
        (checkWorkStartNotification
          { cfg with lastWorkStartNotification :=
              (checkWorkStartNotification st now).2.lastWorkStartNotification } now2).1 = false) ∧
      (∀ (st cfg : State) (now now2 : Nat),
        (checkWorkEndNotification st now).1 = true → toDateString now2 = toDateString now →
        (checkWorkEndNotification
          { cfg with lastWorkEndNotification :=
              (checkWorkEndNotification st now).2.lastWorkEndNotification } now2).1 = false) ∧
      (∀ (st : State) (now now2 : Nat),
        (checkWorkStartNotification st now).1 = true → toDateString now < toDateString now2 →
        isWorkDay st now2 = true → currentTime now2 = st.startTime →
        (checkWorkStartNotification (checkWorkStartNotification st now).2 now2).1 = true) ∧
      (∀ (st : State) (now now2 : Nat),
        (checkWorkEndNotification st now).1 = true → toDateString now < toDateString now2 →
        isWorkDay st now2 = true → currentTime now2 = st.endTime →
        (checkWorkEndNotification (checkWorkEndNotification st now).2 now2).1 = true) := by
  refine ⟨startFiresOn_le_one d ticks none none hsorted, endFiresOn_le_one d ticks none none hsorted,
    ?_, ?_, ?_, ?_⟩
  · intro st cfg now now2 hf hd
    obtain ⟨-, -, -, -, e⟩ := checkWorkStart_fired hf
    rw [e]
    simp [checkWorkStartNotification, hd]
  · intro st cfg now now2 hf hd
    obtain ⟨-, -, -, -, e⟩ := checkWorkEnd_fired hf
    rw [e]
    simp [checkWorkEndNotification, hd]
  · intro st now now2 hf hd hw ht
    obtain ⟨h1, -, -, -, e⟩ := checkWorkStart_fired hf
    rw [e]
    have hne : toDateString now ≠ toDateString now2 := by omega
    have hw2 : getDay now2 ∈ st.workDays := by simpa [isWorkDay] using hw
    simp [checkWorkStartNotification, isWorkDay, h1, ht, hne, hw2]
  · intro st now now2 hf hd hw ht
    obtain ⟨h1, -, -, -, e⟩ := checkWorkEnd_fired hf
    rw [e]
    have hne : toDateString now ≠ toDateString now2 := by omega
    have hw2 : getDay now2 ∈ st.workDays := by simpa [isWorkDay] using hw
    simp [checkWorkEndNotification, isWorkDay, h1, ht, hne, hw2]

/-- C2, an example run: 09:00:00 and 09:00:01 on a Tuesday and 09:00:00 on the
Wednesday fire the work-start event once on each date. -/
theorem boundary_fires_example :
    List.Pairwise (fun a b : Tick => a.now ≤ b.now)
        [⟨initialState, atTime tuesday 9 0 0⟩, ⟨initialState, atTime tuesday 9 0 1⟩,
         ⟨initialState, atTime wednesday 9 0 0⟩] ∧
      startFiresOn tuesday (runChecks none none
        [⟨initialState, atTime tuesday 9 0 0⟩, ⟨initialState, atTime tuesday 9 0 1⟩,
         ⟨initialState, atTime wednesday 9 0 0⟩]) ≤ 1 ∧
      runChecks none none
        [⟨initialState, atTime tuesday 9 0 0⟩, ⟨initialState, atTime tuesday 9 0 1⟩,
         ⟨initialState, atTime wednesday 9 0 0⟩]
        = [(atTime tuesday 9 0 0, true, false), (atTime tuesday 9 0 1, false, false),
           (atTime wednesday 9 0 0, true, false)] :=
  ⟨by decide,
   (boundary_fires_at_most_once_per_date _ tuesday (by decide)).1,
   by decide⟩

/-- C3: the work-start check fires if and only if reminders are enabled, the
weekday of `now` is in `workDays`, the `HH:MM` of `now` (seconds dropped) is
exactly `startTime`, and `lastWorkStartNotification` is not the date of
`now`; when it fires the marker becomes the date of `now`, otherwise the
state is unchanged.  The work-end check is the same with `endTime` and
`lastWorkEndNotification`, and neither check changes the marker of the other. -/
theorem boundary_check_fires_iff (st : State) (now : Nat) :
    ((checkWorkStartNotification st now).1 = true ↔
        st.remindersEnabled = true ∧ getDay now ∈ st.workDays ∧
          hhmm (getHours now) (getMinutes now) = st.startTime ∧
          st.lastWorkStartNotification ≠ some (toDateString now)) ∧
      (checkWorkStartNotification st now).2
        = (if (checkWorkStartNotification st now).1 = true then
            { st with lastWorkStartNotification := some (toDateString now) }
          else st) ∧
      ((checkWorkEndNotification st now).1 = true ↔
        st.remindersEnabled = true ∧ getDay now ∈ st.workDays ∧
          hhmm (getHours now) (getMinutes now) = st.endTime ∧
          st.lastWorkEndNotification ≠ some (toDateString now)) ∧
      (checkWorkEndNotification st now).2
        = (if (checkWorkEndNotification st now).1 = true then
            { st with lastWorkEndNotification := some (toDateString now) }
          else st) ∧
      (checkWorkStartNotification st now).2.lastWorkEndNotification
        = st.lastWorkEndNotification ∧
      (checkWorkEndNotification st now).2.lastWorkStartNotification
        = st.lastWorkStartNotification := by
  refine ⟨?_, ?_, ?_, ?_, checkWorkStart_keeps_end st now, checkWorkEnd_keeps_start st now⟩
  · rw [← currentTime_eq]
    constructor
    · intro h
      obtain ⟨a, b, c, d, -⟩ := checkWorkStart_fired h
      exact ⟨a, by simpa [isWorkDay] using b, c, d⟩
    · rintro ⟨a, b, c, d⟩
      simp [checkWorkStartNotification, isWorkDay, a, b, c, d]
  · unfold checkWorkStartNotification
    split_ifs <;> simp_all
  · rw [← currentTime_eq]
    constructor
    · intro h
      obtain ⟨a, b, c, d, -⟩ := checkWorkEnd_fired h
      exact ⟨a, by simpa [isWorkDay] using b, c, d⟩
    · rintro ⟨a, b, c, d⟩
      simp [checkWorkEndNotification, isWorkDay, a, b, c, d]
  · unfold checkWorkEndNotification
    split_ifs <;> simp_all

/-! ## Work hours -/

/-- C4, counterexample: with the well-formed times 09:00 / 09:00 / 10:00 /
17:00 the lunch window starts with the work, and `isWorkHours` is false at
exactly `startTime`. -/
theorem isWorkHours_false_at_startTime :
    WellFormed lunchAtStartState ∧
      nowMinute (atTime tuesday 9 0 0) = minuteOfDay lunchAtStartState.startTime ∧
      isWorkHours lunchAtStartState (atTime tuesday 9 0 0) = false := by
  decide

/-- C4, amended: for well-formed zero-padded `HH:MM` times the string
comparisons of `isWorkHours` decide the half-open windows on minutes of the
day: the result is true exactly when `startTime ≤ t < endTime` and not
`lunchStart ≤ t < lunchEnd`, for `t` the minute of the day of `now`.  When
the times are in their order `startTime < lunchStart < lunchEnd < endTime`
it is therefore true at exactly `startTime` and at exactly `lunchEnd`, and
false at exactly `endTime` and at exactly `lunchStart`. -/
theorem isWorkHours_iff_windows (st : State) (now : Nat) (hwf : WellFormed st) :
    (isWorkHours st now = true ↔
      (minuteOfDay st.startTime ≤ nowMinute now ∧ nowMinute now < minuteOfDay st.endTime) ∧
        ¬ (minuteOfDay st.lunchStart ≤ nowMinute now ∧
            nowMinute now < minuteOfDay st.lunchEnd)) ∧
      (minuteOfDay st.startTime < minuteOfDay st.lunchStart →
        minuteOfDay st.lunchStart < minuteOfDay st.lunchEnd →
        minuteOfDay st.lunchEnd < minuteOfDay st.endTime →
        (nowMinute now = minuteOfDay st.startTime → isWorkHours st now = true) ∧
        (nowMinute now = minuteOfDay st.lunchEnd → isWorkHours st now = true) ∧
        (nowMinute now = minuteOfDay st.endTime → isWorkHours st now = false) ∧
        (nowMinute now = minuteOfDay st.lunchStart → isWorkHours st now = false)) := by
  have h := isWorkHours_hhmm st now hwf
  refine ⟨h, fun o1 o2 o3 => ⟨fun e => ?_, fun e => ?_, fun e => ?_, fun e => ?_⟩⟩
  · rw [h]; omega
  · rw [h]; omega
  · rw [← Bool.not_eq_true, h]; omega
  · rw [← Bool.not_eq_true, h]; omega

/-- C4, the boundaries of the initial configuration on a Tuesday: true at 09:00
and 13:30, false at 17:30 and 11:30. -/
theorem isWorkHours_boundary_examples :
    WellFormed initialState ∧
      isWorkHours initialState (atTime tuesday 9 0 0) = true ∧
      isWorkHours initialState (atTime tuesday 13 30 0) = true ∧
      isWorkHours initialState (atTime tuesday 17 30 0) = false ∧
      isWorkHours initialState (atTime tuesday 11 30 0) = false :=
  ⟨by decide,
   ((isWorkHours_iff_windows initialState (atTime tuesday 9 0 0) (by decide)).2
      (by decide) (by decide) (by decide)).1 (by decide),
   ((isWorkHours_iff_windows initialState (atTime tuesday 13 30 0) (by decide)).2
      (by decide) (by decide) (by decide)).2.1 (by decide),
   ((isWorkHours_iff_windows initialState (atTime tuesday 17 30 0) (by decide)).2
      (by decide) (by decide) (by decide)).2.2.1 (by decide),
   ((isWorkHours_iff_windows initialState (atTime tuesday 11 30 0) (by decide)).2
      (by decide) (by decide) (by decide)).2.2.2 (by decide)⟩

/-- C5, counterexample: `isWorkHours` is true at 10:00 on a Saturday that is
not a work day, and at 10:00 on a Tuesday with reminders disabled. -/
theorem isWorkHours_true_when_inactive :
    isWorkDay initialState (atTime saturday 10 0 0) = false ∧
      isWorkHours initialState (atTime saturday 10 0 0) = true ∧
      isWorkHours { initialState with remindersEnabled := false } (atTime tuesday 10 0 0) = true := by
  decide

/-- C5, amended: `isWorkHours` reads the four times and the time of day only,
so its result is the same in every state with the same four times, whatever
`remindersEnabled` and `workDays` are.  What is off whenever reminders are
disabled or the weekday is not a work day are the functions that test
`remindersEnabled` and `isWorkDay` first: `calculateNextReminder` returns
null and neither boundary check fires. -/
theorem isWorkHours_ignores_guards (st st2 : State) (now fuel : Nat)
    (htimes : st2.startTime = st.startTime ∧ st2.lunchStart = st.lunchStart ∧
      st2.lunchEnd = st.lunchEnd ∧ st2.endTime = st.endTime)
    (hoff : st.remindersEnabled = false ∨ getDay now ∉ st.workDays) :
    isWorkHours st now = isWorkHours st2 now ∧
      calculateNextReminder fuel st now = some Reminder.null ∧
      (checkWorkStartNotification st now).1 = false ∧
      (checkWorkEndNotification st now).1 = false := by
  obtain ⟨e1, e2, e3, e4⟩ := htimes
  have hg : (!st.remindersEnabled || !isWorkDay st now) = true := by
    rcases hoff with h | h
    · simp [h]
    · simp [isWorkDay, h]
  refine ⟨?_, ?_, ?_, ?_⟩
  · simp only [isWorkHours, e1, e2, e3, e4]
  · unfold calculateNextReminder; rw [if_pos hg]
  · unfold checkWorkStartNotification; rw [if_pos hg]
  · unfold checkWorkEndNotification; rw [if_pos hg]

/-- C5, amended, on a Saturday with work days 1..5. -/
theorem isWorkHours_ignores_guards_example :
    getDay (atTime saturday 10 0 0) ∉ initialState.workDays ∧
      isWorkHours initialState (atTime saturday 10 0 0)
        = isWorkHours { initialState with workDays := [1, 2, 3, 4, 5, 6] }
            (atTime saturday 10 0 0) ∧
      calculateNextReminder 1441 initialState (atTime saturday 10 0 0) = some Reminder.null :=
  ⟨by decide,
   (isWorkHours_ignores_guards initialState { initialState with workDays := [1, 2, 3, 4, 5, 6] }
      (atTime saturday 10 0 0) 1441 ⟨rfl, rfl, rfl, rfl⟩ (Or.inr (by decide))).1,
   (isWorkHours_ignores_guards initialState { initialState with workDays := [1, 2, 3, 4, 5, 6] }
      (atTime saturday 10 0 0) 1441 ⟨rfl, rfl, rfl, rfl⟩ (Or.inr (by decide))).2.1⟩

/-- C6, the failing input: in the initial configuration, on a Tuesday at
09:00:01, `calculateNextReminder` returns 11:00, and no entry of the schedule
list has the time 11:00. -/
theorem schedule_misses_next_reminder :
    (minuteOfDay initialState.startTime < minuteOfDay initialState.lunchStart ∧
      minuteOfDay initialState.lunchStart < minuteOfDay initialState.lunchEnd ∧
      minuteOfDay initialState.lunchEnd < minuteOfDay initialState.endTime ∧
      isWorkDay initialState (atTime tuesday 9 0 1) = true) ∧
      calculateNextReminder 1441 initialState (atTime tuesday 9 0 1)
        = some (Reminder.date (some (atTime tuesday 11 0 0))) ∧
      currentTime (atTime tuesday 11 0 0) = str "11:00" ∧
      (updateScheduleDisplay 1441 initialState).map (fun l => l.map (fun e => e.time))
        = some [str "09:00", str "11:30", str "13:30", str "15:30", str "17:30"] := by
  decide

/-! ## The schedule list -/

/-- C7: for well-formed zero-padded `HH:MM` times and a positive interval
`updateScheduleDisplay` returns (with fuel for its loop) a list that is in
non-decreasing chronological order of time of day and is a permutation of
the four anchor entries followed by the generated stand-up entries; every
time in it is a zero-padded `HH:MM` with hour below 24 and minute below 60,
so that the order of the strings is the order of their minutes of the day. -/
theorem updateScheduleDisplay_sorted_perm (st : State) (fuel : Nat) (hwf : WellFormed st)
    (hpos : 0 < st.reminderInterval) (hfuel : 1441 ≤ fuel) :
    ∃ generated sorted,
      buildSchedule fuel st = some (anchors st ++ generated) ∧
      (∀ e ∈ generated, e.label = Label.standUpBreak) ∧
      updateScheduleDisplay fuel st = some sorted ∧
      List.Sorted chronological sorted ∧
      List.Perm sorted (anchors st ++ generated) ∧
      (∀ e ∈ sorted, isHHMM e.time = true) ∧
      (∀ a ∈ sorted, ∀ b ∈ sorted,
        (strLt a.time b.time = true ↔ minuteOfDay a.time < minuteOfDay b.time)) := by
  obtain ⟨gen, e1, hgen, e2, hall, e3⟩ := updateScheduleDisplay_spec st fuel hwf hpos hfuel
  haveI : IsTotal ScheduleItem chronological := ⟨fun a b => Nat.le_total _ _⟩
  haveI : IsTrans ScheduleItem chronological := ⟨fun a b c => Nat.le_trans⟩
  have hperm : List.Perm (sortSchedule (anchors st ++ gen)) (anchors st ++ gen) := by
    rw [e3]; exact List.perm_insertionSort _ _
  have hall2 : ∀ x ∈ sortSchedule (anchors st ++ gen), isHHMM x.time = true :=
    fun x hx => hall x (hperm.mem_iff.1 hx)
  refine ⟨gen, sortSchedule (anchors st ++ gen), e1, fun x hx => (hgen x hx).1, e2, ?_, hperm,
    hall2, fun a ha b hb => strLt_iff_minuteOfDay (hall2 a ha) (hall2 b hb)⟩
  rw [e3]
  exact List.sorted_insertionSort _ _

/-- C7 at the initial configuration. -/
theorem updateScheduleDisplay_sorted_example :
    (WellFormed initialState ∧ 0 < initialState.reminderInterval) ∧
      ∃ generated sorted,
        buildSchedule 1441 initialState = some (anchors initialState ++ generated) ∧
        (∀ e ∈ generated, e.label = Label.standUpBreak) ∧
        updateScheduleDisplay 1441 initialState = some sorted ∧
        List.Sorted chronological sorted ∧
        List.Perm sorted (anchors initialState ++ generated) ∧
        (∀ e ∈ sorted, isHHMM e.time = true) ∧
        (∀ a ∈ sorted, ∀ b ∈ sorted,
          (strLt a.time b.time = true ↔ minuteOfDay a.time < minuteOfDay b.time)) :=
  ⟨⟨by decide, by decide⟩,
   updateScheduleDisplay_sorted_perm initialState 1441 (by decide) (by decide) (by decide)⟩

/-- C8: for well-formed times and a positive interval, no `Stand Up Break`
entry of the schedule list has an hour `h` with
`lunchStartHour ≤ h < lunchEndHour`, and each of the four anchor labels
occurs exactly once in the list. -/
theorem schedule_standups_and_anchors (st : State) (fuel : Nat) (hwf : WellFormed st)
    (hpos : 0 < st.reminderInterval) (hfuel : 1441 ≤ fuel) :
    ∃ schedule, updateScheduleDisplay fuel st = some schedule ∧
      (∀ e ∈ schedule, e.label = Label.standUpBreak →
        ¬ (hourOf st.lunchStart ≤ hourOf e.time ∧ hourOf e.time < hourOf st.lunchEnd)) ∧
      schedule.countP (fun e => decide (e.label = Label.workStarts)) = 1 ∧
      schedule.countP (fun e => decide (e.label = Label.lunchTime)) = 1 ∧
      schedule.countP (fun e => decide (e.label = Label.backToWork)) = 1 ∧
      schedule.countP (fun e => decide (e.label = Label.workEnds)) = 1 := by
  obtain ⟨gen, e1, hgen, e2, hall, e3⟩ := updateScheduleDisplay_spec st fuel hwf hpos hfuel
  have hperm : List.Perm (sortSchedule (anchors st ++ gen)) (anchors st ++ gen) := by
    rw [e3]; exact List.perm_insertionSort _ _
  have hcount : ∀ lab : Label, lab ≠ Label.standUpBreak →
      gen.countP (fun e => decide (e.label = lab)) = 0 := by
    intro lab hlab
    rw [List.countP_eq_zero]
    intro x hx
    simp only [decide_eq_true_eq]
    rw [(hgen x hx).1]
    exact fun h => hlab h.symm
  refine ⟨_, e2, ?_, ?_, ?_, ?_, ?_⟩
  · intro x hx hlab
    rcases List.mem_append.1 (hperm.mem_iff.1 hx) with hx | hx
    · simp only [anchors, List.mem_cons, List.mem_singleton, List.not_mem_nil, or_false] at hx
      rcases hx with rfl | rfl | rfl | rfl <;> simp at hlab
    · obtain ⟨-, hh, mm, t1, t2, t3, t4⟩ := hgen x hx
      have : hh < 100 := by
        have := (isHHMM_eq_hhmm hwf.2.2.2).2.1
        omega
      rw [t1, hourOf_hhmm this]
      exact t4
  all_goals
    rw [hperm.countP_eq, List.countP_append, hcount _ (by decide)]
    simp [anchors, List.countP_cons]

/-- C8 at the initial configuration. -/
theorem schedule_standups_and_anchors_example :
    (WellFormed initialState ∧ 0 < initialState.reminderInterval) ∧
      ∃ schedule, updateScheduleDisplay 1441 initialState = some schedule ∧
        (∀ e ∈ schedule, e.label = Label.standUpBreak →
          ¬ (hourOf initialState.lunchStart ≤ hourOf e.time ∧
              hourOf e.time < hourOf initialState.lunchEnd)) ∧
        schedule.countP (fun e => decide (e.label = Label.workStarts)) = 1 ∧
        schedule.countP (fun e => decide (e.label = Label.lunchTime)) = 1 ∧
        schedule.countP (fun e => decide (e.label = Label.backToWork)) = 1 ∧
        schedule.countP (fun e => decide (e.label = Label.workEnds)) = 1 :=
  ⟨⟨by decide, by decide⟩,
   schedule_standups_and_anchors initialState 1441 (by decide) (by decide) (by decide)⟩

/-! ## Degenerate configurations -/

/-- C9: out-of-order boundaries give a degenerate result.  For well-formed
times with `startTime ≥ endTime`, `isWorkHours` is false at every instant.
For well-formed times with `lunchStart > lunchEnd` the lunch window never
matches: `isWorkHours` is the plain test `startTime ≤ t < endTime`, the
lunch step of `calculateNextReminder` leaves every candidate as it is, so
that `calculateNextReminder` returns what it returns with an empty lunch
window, and, where `now + interval` is at most the largest time value, what
the specification gives for a configuration with an empty lunch window. -/
theorem out_of_order_windows (st : State) (now : Nat) (hwf : WellFormed st) :
    (minuteOfDay st.endTime ≤ minuteOfDay st.startTime → isWorkHours st now = false) ∧
      (minuteOfDay st.lunchEnd < minuteOfDay st.lunchStart →
        isWorkHours st now
          = decide (minuteOfDay st.startTime ≤ nowMinute now ∧
              nowMinute now < minuteOfDay st.endTime) ∧
        (∀ candidate : Num,
          skipLunch (setHours now (parseTime st.lunchStart).1 (parseTime st.lunchStart).2)
            (setHours now (parseTime st.lunchEnd).1 (parseTime st.lunchEnd).2) candidate
            = candidate) ∧
        (∀ fuel, calculateNextReminder fuel st now
            = calculateNextReminder fuel { st with lunchStart := st.lunchEnd } now) ∧
        (∀ fuel, 0 < st.reminderInterval → 1441 ≤ fuel →
          now + st.reminderInterval * 60000 ≤ maxTimeValue →
          calculateNextReminder fuel st now
            = some (toReminder (nextReminder
                { toConfiguration st with lunchStart := 0, lunchEnd := 0 } now)))) := by
  have h := isWorkHours_hhmm st now hwf
  have hskip : minuteOfDay st.lunchEnd < minuteOfDay st.lunchStart → ∀ c : Num,
      skipLunch (setHours now (parseTime st.lunchStart).1 (parseTime st.lunchStart).2)
        (setHours now (parseTime st.lunchEnd).1 (parseTime st.lunchEnd).2) c = c := by
    intro o c
    rw [setHours_of_isHHMM hwf.2.1, setHours_of_isHHMM hwf.2.2.1]
    exact skipLunch_clip_reversed _ _ (todayAt_lt now o) c
  refine ⟨fun o => ?_, fun o => ⟨?_, hskip o, fun fuel => ?_, fun fuel hpos hfuel hrange => ?_⟩⟩
  · rw [← Bool.not_eq_true, h]; omega
  · rw [Bool.eq_iff_iff, h, decide_eq_true_eq]
    constructor
    · exact fun x => x.1
    · exact fun x => ⟨x, by omega⟩
  · simp only [calculateNextReminder, isWorkDay, hskip o, skipLunch_same]
  · have hle : todayAt now (minuteOfDay st.startTime) ≤ now →
        leastSlotAfter (todayAt now (minuteOfDay st.startTime)) (st.reminderInterval * 60000) now
          ≤ maxTimeValue := by
      intro hs
      have := @leastSlotAfter_le (todayAt now (minuteOfDay st.startTime))
        (st.reminderInterval * 60000) now hs
      omega
    rw [calculateNextReminder_refines_aux st now fuel hwf hpos hfuel (by omega)
        (fun hs _ => hle hs),
      nextReminder_reversed_lunch (toConfiguration st) now o]

/-- C9 on a state with work from 17:30 to 09:00, and on a state with lunch from
13:30 to 11:30 in the work hours 09:00 to 17:30: there `isWorkHours` is true
at 12:00 and the candidate 12:30 is left as it is. -/
theorem out_of_order_windows_example :
    (WellFormed reversedState ∧ WellFormed reversedLunchState) ∧
      isWorkHours reversedState (atTime tuesday 10 0 0) = false ∧
      isWorkHours reversedLunchState (atTime tuesday 12 0 0) = true ∧
      skipLunch
          (setHours (atTime tuesday 12 0 0) (parseTime reversedLunchState.lunchStart).1
            (parseTime reversedLunchState.lunchStart).2)
          (setHours (atTime tuesday 12 0 0) (parseTime reversedLunchState.lunchEnd).1
            (parseTime reversedLunchState.lunchEnd).2)
          (some (atTime tuesday 12 30 0))
        = some (atTime tuesday 12 30 0) :=
  ⟨⟨by decide, by decide⟩,
   (out_of_order_windows reversedState (atTime tuesday 10 0 0) (by decide)).1 (by decide),
   (((out_of_order_windows reversedLunchState (atTime tuesday 12 0 0) (by decide)).2
      (by decide)).1).trans (by decide),
   ((out_of_order_windows reversedLunchState (atTime tuesday 12 0 0) (by decide)).2
      (by decide)).2.1 _⟩

/-- C10, counterexample: with `lunchStart` set to `abc`, which does not parse
(hour and minute are NaN), `calculateNextReminder` returns 11:00 on a Tuesday
at 09:00:01, `updateScheduleDisplay` returns a schedule that holds the entry
`abc`, and `saveSettingsFromUI` puts `abc` in the state that it persists and
in the state it returns. -/
theorem malformed_time_is_accepted :
    isHHMM malformedState.lunchStart = false ∧
      parseTime malformedState.lunchStart = (none, none) ∧
      calculateNextReminder 1441 malformedState (atTime tuesday 9 0 1)
        = some (Reminder.date (some (atTime tuesday 11 0 0))) ∧
      updateScheduleDisplay 1441 malformedState
        = some [⟨str "09:00", Label.workStarts⟩, ⟨str "11:00", Label.standUpBreak⟩,
            ⟨str "13:00", Label.standUpBreak⟩, ⟨str "13:30", Label.backToWork⟩,
            ⟨str "15:00", Label.standUpBreak⟩, ⟨str "17:30", Label.workEnds⟩,
            ⟨str "abc", Label.lunchTime⟩] ∧
      (saveSettingsFromUI 1441 initialState malformedForm (atTime tuesday 9 0 1)).saved.lunchStart
        = str "abc" ∧
      (saveSettingsFromUI 1441 initialState malformedForm (atTime tuesday 9 0 1)).returned.map
          (fun s => s.lunchStart) = some (str "abc") := by
  decide

/-- C10, amended: the times are never validated and there is no error
condition.  `saveSettingsFromUI` first puts the four time strings of the
form into the state, whatever they are, and persists them; the state it
returns, when it returns, holds them too.  For every state with a positive
interval whose times are strings of digits and colons, well-formed or not,
`calculateNextReminder` returns a result, which is null or an Invalid Date
when the date built from `startTime` is invalid. -/
theorem times_are_not_validated (st : State) (form : SettingsForm) (now fuel : Nat) :
    ((saveSettingsFromUI fuel st form now).saved.startTime = form.startTime ∧
        (saveSettingsFromUI fuel st form now).saved.lunchStart = form.lunchStart ∧
        (saveSettingsFromUI fuel st form now).saved.lunchEnd = form.lunchEnd ∧
        (saveSettingsFromUI fuel st form now).saved.endTime = form.endTime) ∧
      (∀ st2, (saveSettingsFromUI fuel st form now).returned = some st2 →
        st2.startTime = form.startTime ∧ st2.lunchStart = form.lunchStart ∧
        st2.lunchEnd = form.lunchEnd ∧ st2.endTime = form.endTime) ∧
      (0 < st.reminderInterval → 1441 ≤ fuel → PlainTimes st →
        ∃ r, calculateNextReminder fuel st now = some r ∧
          (setHours now (parseTime st.startTime).1 (parseTime st.startTime).2 = none →
            r = Reminder.null ∨ r = Reminder.date none)) := by
  refine ⟨⟨rfl, rfl, rfl, rfl⟩, ?_,
    fun hpos hfuel _ => calculateNextReminder_total st now fuel hpos hfuel⟩
  intro st2 h
  unfold saveSettingsFromUI at h
  dsimp only at h
  split at h
  · exact absurd h (by simp)
  · split at h
    · exact absurd h (by simp)
    · simp only [Option.some.injEq] at h
      subst h
      exact ⟨rfl, rfl, rfl, rfl⟩

/-- C10, amended, at the state and the form of a cleared `lunchStart` input:
the empty string is stored, the save returns, and on a Tuesday at 11:05
`calculateNextReminder` returns 13:00 (no lunch window is skipped). -/
theorem times_are_not_validated_example :
    (0 < clearedState.reminderInterval ∧ PlainTimes clearedState ∧
        isHHMM clearedState.lunchStart = false) ∧
      (saveSettingsFromUI 1441 initialState clearedForm (atTime tuesday 11 5 0)).saved.lunchStart
        = [] ∧
      (saveSettingsFromUI 1441 initialState clearedForm (atTime tuesday 11 5 0)).returned.map
          (fun s => s.lunchStart) = some [] ∧
      calculateNextReminder 1441 clearedState (atTime tuesday 11 5 0)
        = some (Reminder.date (some (atTime tuesday 13 0 0))) ∧
      (∃ r, calculateNextReminder 1441 clearedState (atTime tuesday 11 5 0) = some r ∧
        (setHours (atTime tuesday 11 5 0) (parseTime clearedState.startTime).1
            (parseTime clearedState.startTime).2 = none →
          r = Reminder.null ∨ r = Reminder.date none)) :=
  ⟨⟨by decide, by decide, by decide⟩,
   (times_are_not_validated initialState clearedForm (atTime tuesday 11 5 0) 1441).1.2.1,
   by decide, by decide,
   (times_are_not_validated clearedState clearedForm (atTime tuesday 11 5 0) 1441).2.2
     (by decide) (by decide) (by decide)⟩

/-! ## The returned instant and termination -/

/-- C11: for well-formed times in the order
`startTime < lunchStart < lunchEnd < endTime` and a positive interval,
whenever `calculateNextReminder` returns an instant `r` at `now`, `r` is
strictly later than `now`, on the calendar date of `now`, at or after the
start of work and before the end of work, and not inside
`[lunchStart, lunchEnd)`; so `isWorkHours` holds at `r`, `r` is none of the
instants that `now` has reached, and when the timer callback fires the
reminder `fired` and recomputes, the new next reminder is `r`, later than
`fired`. -/
theorem calculateNextReminder_in_work_hours (st : State) (now fuel r : Nat)
    (hwf : WellFormed st)
    (hord : minuteOfDay st.startTime < minuteOfDay st.lunchStart ∧
      minuteOfDay st.lunchStart < minuteOfDay st.lunchEnd ∧
      minuteOfDay st.lunchEnd < minuteOfDay st.endTime)
    (hpos : 0 < st.reminderInterval)
    (hr : calculateNextReminder fuel st now = some (Reminder.date (some r))) :
    now < r ∧ toDateString r = toDateString now ∧
      todayAt now (minuteOfDay st.startTime) ≤ r ∧ r < todayAt now (minuteOfDay st.endTime) ∧
      ¬ (todayAt now (minuteOfDay st.lunchStart) ≤ r ∧
          r < todayAt now (minuteOfDay st.lunchEnd)) ∧
      isWorkHours st r = true ∧
      (∀ fired, fired ≤ now → r ≠ fired) ∧
      (∀ fired st2, st.nextReminder = Reminder.date (some fired) →
        reminderTick fuel st now = some (true, st2) →
        st2.nextReminder = Reminder.date (some r) ∧ fired < r) := by
  have h1 := calculateNextReminder_fuel_le st now (Nat.le_add_right fuel 1441) _ hr
  by_cases hv : now < maxTimeValue ∧
      (todayAt now (minuteOfDay st.startTime) ≤ now →
        now < todayAt now (minuteOfDay st.endTime) →
        leastSlotAfter (todayAt now (minuteOfDay st.startTime)) (st.reminderInterval * 60000) now
          ≤ maxTimeValue)
  swap
  · exact absurd h1
      (calculateNextReminder_out_of_range st now (fuel + 1441) hwf hpos (by omega) hv r)
  rw [calculateNextReminder_refines_aux st now (fuel + 1441) hwf hpos (by omega) hv.1 hv.2] at h1
  have h2 : nextReminder (toConfiguration st) now = some r := by
    cases e : nextReminder (toConfiguration st) now with
    | none => rw [e] at h1; simp [toReminder] at h1
    | some x => rw [e] at h1; simp [toReminder] at h1; rw [h1]
  obtain ⟨p1, p2, p3, p4⟩ := nextReminder_some (toConfiguration st) now r hord.1 hord.2.1
    hord.2.2 hpos h2
  simp only [toConfiguration] at p2 p3 p4
  have hend := minuteOfDay_lt hwf.2.2.2
  obtain ⟨q1, q2, q3⟩ := nowMinute_of_today hend p2 p3
  refine ⟨p1, toDateString_of_today hend p2 p3, p2, p3, p4, ?_, fun f hf => by omega, ?_⟩
  · rw [isWorkHours_hhmm st r hwf]
    refine ⟨⟨q1, q2⟩, fun hl => p4 ⟨(q3 _).1 hl.1, ?_⟩⟩
    have := (q3 (minuteOfDay st.lunchEnd)).not
    omega
  · intro fired st2 hn ht
    unfold reminderTick at ht
    rw [hn] at ht
    dsimp only at ht
    split_ifs at ht with hge
    · rw [hr] at ht
      simp only [Option.some.injEq, Prod.mk.injEq, true_and] at ht
      subst ht
      simp only [jsGe, decide_eq_true_eq] at hge
      exact ⟨rfl, by omega⟩
    · simp at ht

/-- C11 in the initial configuration on a Tuesday: at 11:05 the next reminder
is 13:30, and the callback that fires the 11:00 reminder stores 13:30. -/
theorem calculateNextReminder_in_work_hours_example :
    (WellFormed initialState ∧
      calculateNextReminder 1441 initialState (atTime tuesday 11 5 0)
        = some (Reminder.date (some (atTime tuesday 13 30 0)))) ∧
      atTime tuesday 11 5 0 < atTime tuesday 13 30 0 ∧
      toDateString (atTime tuesday 13 30 0) = toDateString (atTime tuesday 11 5 0) ∧
      isWorkHours initialState (atTime tuesday 13 30 0) = true ∧
      reminderTick 1441
          { initialState with nextReminder := Reminder.date (some (atTime tuesday 11 0 0)) }
          (atTime tuesday 11 0 0)
        = some (true,
            { initialState with nextReminder := Reminder.date (some (atTime tuesday 13 30 0)) }) :=
  ⟨⟨by decide, by decide⟩,
   (calculateNextReminder_in_work_hours initialState (atTime tuesday 11 5 0) 1441
      (atTime tuesday 13 30 0) (by decide) (by decide) (by decide) (by decide)).1,
   (calculateNextReminder_in_work_hours initialState (atTime tuesday 11 5 0) 1441
      (atTime tuesday 13 30 0) (by decide) (by decide) (by decide) (by decide)).2.1,
   (calculateNextReminder_in_work_hours initialState (atTime tuesday 11 5 0) 1441
      (atTime tuesday 13 30 0) (by decide) (by decide) (by decide) (by decide)).2.2.2.2.2.1,
   by decide⟩

/-- C12: for well-formed times and an interval of at least 1 both loops end.
The loop of `updateScheduleDisplay` returns once the fuel covers the minutes
from `startTime` to the end hour (at most 1441 iterations): one iteration
adds the interval to the slot, which strictly increases its minute of the
day, then stops when the hour has reached the end hour, or goes on from
`lunchEnd`, which is later still, or from the new slot.  The scan loop of
`calculateNextReminder` returns a candidate once the fuel covers the
intervals between the start of work and `now` (at most 1441 tests); the
candidate is a valid instant where `now + interval` is at most the largest
time value, and the loop also ends when a sum is out of range.  So
`calculateNextReminder` returns with fuel 1441. -/
theorem loops_terminate (st : State) (now : Nat) (hwf : WellFormed st)
    (hpos : 1 ≤ st.reminderInterval) :
    (∀ fuel, hourOf st.endTime * 60 - minuteOfDay st.startTime + 1 ≤ fuel →
        ∃ schedule, buildSchedule fuel st = some schedule ∧
          updateScheduleDisplay fuel st = some (sortSchedule schedule)) ∧
      hourOf st.endTime * 60 - minuteOfDay st.startTime + 1 ≤ 1441 ∧
      (∀ (fuel h m : Nat) (acc : List ScheduleItem), m < 60 →
        scheduleLoop st.reminderInterval (some (hourOf st.lunchStart))
            (some (hourOf st.lunchEnd)) (some (minuteOf st.lunchEnd)) (some (hourOf st.endTime))
            (fuel + 1) (some h) (some m) acc
          = (if hourOf st.endTime ≤ nextHour st.reminderInterval h m then some acc
            else if hourOf st.lunchStart ≤ nextHour st.reminderInterval h m ∧
                nextHour st.reminderInterval h m < hourOf st.lunchEnd then
              scheduleLoop st.reminderInterval (some (hourOf st.lunchStart))
                (some (hourOf st.lunchEnd)) (some (minuteOf st.lunchEnd))
                (some (hourOf st.endTime)) fuel
                (some (hourOf st.lunchEnd)) (some (minuteOf st.lunchEnd)) acc
            else
              scheduleLoop st.reminderInterval (some (hourOf st.lunchStart))
                (some (hourOf st.lunchEnd)) (some (minuteOf st.lunchEnd))
                (some (hourOf st.endTime)) fuel
                (some (nextHour st.reminderInterval h m)) (some (nextMin st.reminderInterval m))
                (acc ++ [⟨pad2 (some (nextHour st.reminderInterval h m)) ++ [58]
                            ++ pad2 (some (nextMin st.reminderInterval m)),
                          Label.standUpBreak⟩])) ∧
        h * 60 + m < nextHour st.reminderInterval h m * 60 + nextMin st.reminderInterval m ∧
        nextMin st.reminderInterval m < 60 ∧
        minuteOf st.lunchEnd < 60 ∧
        (nextHour st.reminderInterval h m < hourOf st.lunchEnd →
          h * 60 + m < hourOf st.lunchEnd * 60 + minuteOf st.lunchEnd)) ∧
      (∀ fuel, (now - todayAt now (minuteOfDay st.startTime)) / (st.reminderInterval * 60000) + 2
          ≤ fuel →
        ∃ candidate : Num, scanLoop st.reminderInterval now fuel
            (setHours now (parseTime st.startTime).1 (parseTime st.startTime).2)
          = some candidate ∧
          (now + st.reminderInterval * 60000 ≤ maxTimeValue → ∃ t, candidate = some t)) ∧
      (now - todayAt now (minuteOfDay st.startTime)) / (st.reminderInterval * 60000) + 2 ≤ 1441 ∧
      (∀ fuel, 1441 ≤ fuel → ∃ r, calculateNextReminder fuel st now = some r) := by
  obtain ⟨h1, h2, h3, h4⟩ := hwf
  obtain ⟨-, a1, b1⟩ := isHHMM_eq_hhmm h1
  obtain ⟨-, a3, b3⟩ := isHHMM_eq_hhmm h3
  obtain ⟨-, a4, b4⟩ := isHHMM_eq_hhmm h4
  refine ⟨fun fuel hf => ?_, ?_, fun fuel h m acc hm => ⟨scheduleLoop_step _ _ _ _ _ _ _ _ _, ?_,
    nextMin_lt _ _, b3, fun hlt => ?_⟩, fun fuel hf => ?_, ?_, fun fuel hf => ?_⟩
  · have : ∃ gen, buildSchedule fuel st = some (anchors st ++ gen) ∧
        ∀ e ∈ gen, StandUp (hourOf st.lunchStart) (hourOf st.lunchEnd) (hourOf st.endTime) e := by
      unfold buildSchedule
      rw [parseTime_of_isHHMM h1, parseTime_of_isHHMM h2, parseTime_of_isHHMM h3,
        parseTime_of_isHHMM h4]
      exact scheduleLoop_spec _ _ _ _ _ hpos b3 a4 fuel _ _ _ b1 hf
    obtain ⟨gen, e, -⟩ := this
    exact ⟨_, e, by simp [updateScheduleDisplay, e]⟩
  · omega
  · have := nextHour_nextMin st.reminderInterval h m
    omega
  · have := nextHour_nextMin st.reminderInterval h m
    have := nextMin_lt st.reminderInterval m
    omega
  · rw [setHours_of_isHHMM h1]
    obtain ⟨f, rfl⟩ : ∃ f, fuel = f + 1 := by
      generalize (now - todayAt now (minuteOfDay st.startTime))
        / (st.reminderInterval * 60000) = q at hf
      exact ⟨fuel - 1, by omega⟩
    by_cases hs : todayAt now (minuteOfDay st.startTime) ≤ maxTimeValue
    · rw [timeClip_of_le hs]
      by_cases hx : todayAt now (minuteOfDay st.startTime) ≤ now
      · refine ⟨_, scanLoop_le _ _ hpos (f + 1) _ hx hf, fun hr => ⟨_, timeClip_of_le ?_⟩⟩
        have := @leastSlotAfter_le (todayAt now (minuteOfDay st.startTime))
          (st.reminderInterval * 60000) now hx
        omega
      · exact ⟨_, scanLoop_gt _ _ _ _ (by omega), fun _ => ⟨_, rfl⟩⟩
    · rw [timeClip_of_gt (by omega)]
      refine ⟨none, scanLoop_nan _ _ _, fun hr => ?_⟩
      have := @todayAt_le_max now (minuteOfDay st.startTime) (by omega) (minuteOfDay_lt h1)
      omega
  · exact scan_fuel_bound st now _ 1441 hpos (le_refl _)
  · obtain ⟨r, e, -⟩ := calculateNextReminder_total st now fuel hpos hf
    exact ⟨r, e⟩

/-- C12 in the initial configuration: 511 iterations are enough for the schedule
loop and 3 tests for the scan at 11:05. -/
theorem loops_terminate_example :
    (WellFormed initialState ∧ 1 ≤ initialState.reminderInterval) ∧
      (∃ schedule, buildSchedule 511 initialState = some schedule ∧
        updateScheduleDisplay 511 initialState = some (sortSchedule schedule)) ∧
      (∃ candidate : Num, scanLoop initialState.reminderInterval (atTime tuesday 11 5 0) 3
          (setHours (atTime tuesday 11 5 0) (parseTime initialState.startTime).1
            (parseTime initialState.startTime).2)
        = some candidate ∧
        (atTime tuesday 11 5 0 + initialState.reminderInterval * 60000 ≤ maxTimeValue →
          ∃ t, candidate = some t)) :=
  ⟨⟨by decide, by decide⟩,
   (loops_terminate initialState (atTime tuesday 11 5 0) (by decide) (by decide)).1 511
     (by decide),
   (loops_terminate initialState (atTime tuesday 11 5 0) (by decide) (by decide)).2.2.2.1 3
     (by decide)⟩

end WellnessPup
